import Mathlib

/-!
Verification of the Data Matrix encoding core (`dmtxencodescheme.c`).

The definitions below are a shallow embedding of the C source: each C
function becomes a Lean function over an explicit `DmtxEncodeStream`
record.  The stream primitives (`StreamOutputChainAppend`, ...) and the
symbol-size collaborator (`FindSymbolSize`, `dmtxGetSymbolAttribute`)
live outside the given source file; those are modelled from the
specification's data model and external-interface sections.
-/

namespace Dmtx

/-- The encodation schemes (`DmtxScheme`). -/
inductive DmtxScheme where
  | Ascii
  | C40
  | Text
  | X12
  | Edifact
  | Base256
deriving DecidableEq

/-- Stream status (`DmtxStatus`): Encoding / Complete / Invalid / Fatal. -/
inductive DmtxStatus where
  | Encoding
  | Complete
  | Invalid
  | Fatal
deriving DecidableEq

/-- Unlatch kind (`DmtxUnlatchExplicit` / `DmtxUnlatchImplicit`). -/
inductive DmtxUnlatch where
  | Explicit
  | Implicit
deriving DecidableEq

/-- Modelled from the spec: a `DmtxByteList` is a bounded byte buffer
(storage capacity plus current contents); `dmtxByteListPush` fails when
the buffer is full. -/
structure DmtxByteList where
  capacity : Nat
  b : List Nat
deriving DecidableEq

/-- `dmtxByteListBuild(storage, size)`: an empty list over `size` bytes. -/
def dmtxByteListBuild (capacity : Nat) : DmtxByteList :=
  { capacity := capacity, b := [] }

/-- `list.length` of a `DmtxByteList`. -/
def DmtxByteList.length (l : DmtxByteList) : Nat := l.b.length

/-- `dmtxByteListHasCapacity`. -/
def dmtxByteListHasCapacity (l : DmtxByteList) : Bool :=
  l.length < l.capacity

/-- Modelled from the spec: `dmtxByteListPush` appends one byte (the
`DmtxByte` argument is truncated mod 256), failing when full. -/
def dmtxByteListPush (l : DmtxByteList) (v : Nat) : DmtxByteList × Bool :=
  if l.b.length < l.capacity then
    ({ capacity := l.capacity, b := l.b ++ [v % 256] }, true)
  else
    (l, false)

/-- Modelled from the spec: the mutable `EncodeStream` record
(spec section 3, data model). `sizeIdx = none` is `DmtxUndefined`. -/
structure DmtxEncodeStream where
  input : List Nat
  inputNext : Nat
  output : DmtxByteList
  currentScheme : DmtxScheme
  outputChainWordCount : Nat
  outputChainValueCount : Nat
  status : DmtxStatus
  reason : Option Nat
  sizeIdx : Option Nat
deriving DecidableEq

/-- Modelled from the spec: the external symbol-size collaborator
(spec section 6): `find_symbol_size` and `symbol_data_words` supplied as
pure functions.  `findSymbolSize` takes the length as an integer because
the C caller passes a (possibly decremented) `int`. -/
structure SymbolTable where
  symbolDataWords : Nat → Nat
  findSymbolSize : Int → Option Nat → Option Nat

/-- Modelled from the spec: `find_symbol_size` returns "the smallest
symbol able to hold that many data words", so a defined result always
has capacity at least the requested count. -/
def SymbolTable.Valid (t : SymbolTable) : Prop :=
  ∀ n hint idx, t.findSymbolSize n hint = some idx →
    n ≤ (t.symbolDataWords idx : Int)

/-- Modelled from the spec (lifecycle: the stream "transitions exactly
once to a terminal state"): `StreamMarkComplete`. -/
def streamMarkComplete (s : DmtxEncodeStream) (sizeIdx : Nat) : DmtxEncodeStream :=
  if s.status = DmtxStatus.Encoding then
    { s with status := DmtxStatus.Complete, sizeIdx := some sizeIdx }
  else s

/-- Modelled from the spec: `StreamMarkInvalid`. -/
def streamMarkInvalid (s : DmtxEncodeStream) (reason : Nat) : DmtxEncodeStream :=
  if s.status = DmtxStatus.Encoding then
    { s with status := DmtxStatus.Invalid, reason := some reason }
  else s

/-- Modelled from the spec: `StreamMarkFatal`. -/
def streamMarkFatal (s : DmtxEncodeStream) (reason : Nat) : DmtxEncodeStream :=
  if s.status = DmtxStatus.Encoding then
    { s with status := DmtxStatus.Fatal, reason := some reason }
  else s

/-- Modelled from the spec: `StreamInputHasNext`. -/
def streamInputHasNext (s : DmtxEncodeStream) : Bool :=
  s.inputNext < s.input.length

/-- Modelled from the spec: `StreamInputPeekNext` reads the byte at the
cursor without advancing; out of range is a fatal error. -/
def streamInputPeekNext (s : DmtxEncodeStream) : Nat × DmtxEncodeStream :=
  match s.input[s.inputNext]? with
  | some v => (v, s)
  | none => (0, streamMarkFatal s 1)

/-- Modelled from the spec: `StreamInputAdvanceNext` reads the byte at
the cursor and advances it. -/
def streamInputAdvanceNext (s : DmtxEncodeStream) : Nat × DmtxEncodeStream :=
  match s.input[s.inputNext]? with
  | some v => (v, { s with inputNext := s.inputNext + 1 })
  | none => (0, streamMarkFatal s 1)

/-- Modelled from the spec: `StreamOutputChainAppend` pushes one output
byte and counts it in the current chain's word count. -/
def streamOutputChainAppend (s : DmtxEncodeStream) (value : Nat) : DmtxEncodeStream :=
  if s.output.b.length < s.output.capacity then
    { s with
        output := { capacity := s.output.capacity, b := s.output.b ++ [value % 256] },
        outputChainWordCount := s.outputChainWordCount + 1 }
  else
    streamMarkFatal s 1

/-- Modelled from the spec: `StreamOutputChainRemoveLast` removes and
returns the last output byte of the current chain. -/
def streamOutputChainRemoveLast (s : DmtxEncodeStream) : Nat × DmtxEncodeStream :=
  if 0 < s.outputChainWordCount then
    match s.output.b.getLast? with
    | some v =>
        (v, { s with
                output := { capacity := s.output.capacity, b := s.output.b.dropLast },
                outputChainWordCount := s.outputChainWordCount - 1 })
    | none => (0, streamMarkFatal s 1)
  else
    (0, streamMarkFatal s 1)

/-- Modelled from the spec: `StreamOutputChainInsertFirst` inserts one
zero-valued byte at the front of the current chain by shifting the chain
one position (spec sections 3 and 9, Base256 header management). -/
def streamOutputChainInsertFirst (s : DmtxEncodeStream) : DmtxEncodeStream :=
  if s.output.b.length < s.output.capacity ∧ s.outputChainWordCount ≤ s.output.b.length then
    let i := s.output.b.length - s.outputChainWordCount
    { s with
        output := { capacity := s.output.capacity,
                    b := s.output.b.take i ++ [0] ++ s.output.b.drop i },
        outputChainWordCount := s.outputChainWordCount + 1 }
  else
    streamMarkFatal s 1

/-- Modelled from the spec: `StreamOutputChainRemoveFirst` removes the
byte at the front of the current chain by shifting the chain. -/
def streamOutputChainRemoveFirst (s : DmtxEncodeStream) : DmtxEncodeStream :=
  if 0 < s.outputChainWordCount ∧ s.outputChainWordCount ≤ s.output.b.length then
    let i := s.output.b.length - s.outputChainWordCount
    { s with
        output := { capacity := s.output.capacity,
                    b := s.output.b.take i ++ s.output.b.drop (i + 1) },
        outputChainWordCount := s.outputChainWordCount - 1 }
  else
    streamMarkFatal s 1

/-- Modelled from the spec: `StreamOutputSet` overwrites the output byte
at the given index (the index is an `int` in C). -/
def streamOutputSet (s : DmtxEncodeStream) (index : Int) (value : Nat) : DmtxEncodeStream :=
  if 0 ≤ index ∧ index.toNat < s.output.b.length then
    { s with
        output := { capacity := s.output.capacity,
                    b := s.output.b.set index.toNat (value % 256) } }
  else
    streamMarkFatal s 1

/-- `Randomize253State2`: the `DmtxByte` argument is truncated mod 256
as in C; the position term is `((149 * pos) mod 253) + 1` and one
conditional subtraction of 254 keeps the sum in byte range. -/
def randomize253 (cwValue : Nat) (cwPosition : Nat) : Nat :=
  let pseudoRandom := (149 * cwPosition) % 253 + 1
  let tmp := cwValue % 256 + pseudoRandom
  if tmp > 254 then tmp - 254 else tmp

/-- `Randomize255State2`. -/
def randomize255 (value : Nat) (position : Nat) : Nat :=
  let pseudoRandom := (149 * position) % 255 + 1
  let tmp := value % 256 + pseudoRandom
  if tmp ≤ 255 then tmp else tmp - 256

/-- `GetRemainingSymbolCapacity` (for a defined size index). -/
def getRemainingSymbolCapacity (t : SymbolTable) (outputLength : Int) (sizeIdx : Nat) : Int :=
  (t.symbolDataWords sizeIdx : Int) - outputLength

/-- `DmtxValueAsciiPad`. -/
def DmtxValueAsciiPad : Nat := 129

/-- `DmtxValueAsciiUpperShift`. -/
def DmtxValueAsciiUpperShift : Nat := 235

/-- `DmtxValueC40Latch`. -/
def DmtxValueC40Latch : Nat := 230

/-- `DmtxValueTextLatch`. -/
def DmtxValueTextLatch : Nat := 239

/-- `DmtxValueX12Latch`. -/
def DmtxValueX12Latch : Nat := 238

/-- `DmtxValueEdifactLatch`. -/
def DmtxValueEdifactLatch : Nat := 240

/-- `DmtxValueBase256Latch`. -/
def DmtxValueBase256Latch : Nat := 231

/-- `DmtxValueCTXUnlatch`. -/
def DmtxValueCTXUnlatch : Nat := 254

/-- `DmtxValueEdifactUnlatch`. -/
def DmtxValueEdifactUnlatch : Nat := 31

/-- `DmtxValueCTXShift1`. -/
def DmtxValueCTXShift1 : Nat := 0

/-- `DmtxValueCTXShift2`. -/
def DmtxValueCTXShift2 : Nat := 1

/-- `DmtxValueCTXShift3`. -/
def DmtxValueCTXShift3 : Nat := 2

/-- `ISDIGIT`. -/
def isDigit (v : Nat) : Bool := decide (48 ≤ v ∧ v ≤ 57)

/-- `EncodeValueAscii`: append one ASCII codeword (CHKSCHEME Ascii,
append, count one value). -/
def encodeValueAscii (s : DmtxEncodeStream) (value : Nat) : DmtxEncodeStream :=
  if s.currentScheme ≠ DmtxScheme.Ascii then streamMarkFatal s 1 else
  let s1 := streamOutputChainAppend s value
  if s1.status ≠ DmtxStatus.Encoding then s1 else
  { s1 with outputChainValueCount := s1.outputChainValueCount + 1 }

/-- Tail of `EncodeNextChunkAscii` for a single (non digit-pair) byte:
regular ASCII char, or upper shift followed by `v0 - 127`. -/
def encodeNextChunkAsciiSingle (s : DmtxEncodeStream) (v0 : Nat) : DmtxEncodeStream :=
  if v0 < 128 then
    encodeValueAscii s (v0 + 1)
  else
    let s1 := encodeValueAscii s DmtxValueAsciiUpperShift
    if s1.status ≠ DmtxStatus.Encoding then s1 else
    encodeValueAscii s1 (v0 - 127)

/-- `EncodeNextChunkAscii`. -/
def encodeNextChunkAscii (s : DmtxEncodeStream) : DmtxEncodeStream :=
  if streamInputHasNext s then
    let p0 := streamInputAdvanceNext s
    if p0.2.status ≠ DmtxStatus.Encoding then p0.2 else
    if streamInputHasNext p0.2 then
      let p1 := streamInputPeekNext p0.2
      if p1.2.status ≠ DmtxStatus.Encoding then p1.2 else
      if isDigit p0.1 && isDigit p1.1 then
        let p2 := streamInputAdvanceNext p1.2
        if p2.2.status ≠ DmtxStatus.Encoding then p2.2 else
        encodeValueAscii p2.2 (10 * (p0.1 - 48) + (p1.1 - 48) + 130)
      else
        encodeNextChunkAsciiSingle p1.2 p0.1
    else
      encodeNextChunkAsciiSingle p0.2 p0.1
  else s

/-- The randomized-pad while loop of `PadRemainingInAscii`, unrolled on
the number of remaining pad characters. -/
def padLoop (n : Nat) (s : DmtxEncodeStream) : DmtxEncodeStream :=
  match n with
  | 0 => s
  | m + 1 =>
    let padValue := randomize253 DmtxValueAsciiPad (s.output.b.length + 1)
    let s1 := streamOutputChainAppend s padValue
    if s1.status ≠ DmtxStatus.Encoding then s1 else padLoop m s1

/-- `PadRemainingInAscii`: first pad is the literal 129, the rest are
position-randomized. -/
def padRemainingInAscii (t : SymbolTable) (s : DmtxEncodeStream) (sizeIdx : Option Nat) : DmtxEncodeStream :=
  if s.currentScheme ≠ DmtxScheme.Ascii then streamMarkFatal s 1 else
  match sizeIdx with
  | none => streamMarkInvalid s 1
  | some idx =>
    let symbolRemaining := getRemainingSymbolCapacity t (s.output.b.length : Int) idx
    if 0 < symbolRemaining then
      let s1 := streamOutputChainAppend s DmtxValueAsciiPad
      if s1.status ≠ DmtxStatus.Encoding then s1 else
      padLoop (symbolRemaining - 1).toNat s1
    else s

/-- `CompleteIfDoneAscii`. -/
def completeIfDoneAscii (t : SymbolTable) (hint : Option Nat) (s : DmtxEncodeStream) : DmtxEncodeStream :=
  if streamInputHasNext s then s else
  match t.findSymbolSize (s.output.b.length : Int) hint with
  | none => streamMarkInvalid s 1
  | some sizeIdx =>
    let s1 := padRemainingInAscii t s (some sizeIdx)
    if s1.status ≠ DmtxStatus.Encoding then s1 else
    streamMarkComplete s1 sizeIdx

/-- C40, Text and X12 are the triplet (CTX) schemes. -/
def isCTXScheme : DmtxScheme → Bool
  | DmtxScheme.C40 => true
  | DmtxScheme.Text => true
  | DmtxScheme.X12 => true
  | _ => false

/-- `EncodeValuesCTX`: pack a 3-value list into the 16-bit pair value
and append its two codewords, counting 3 values. -/
def encodeValuesCTX (s : DmtxEncodeStream) (valueList : DmtxByteList) : DmtxEncodeStream :=
  if ¬ isCTXScheme s.currentScheme then streamMarkFatal s 1 else
  if valueList.b.length ≠ 3 then streamMarkFatal s 1 else
  let pairValue := 1600 * valueList.b.getD 0 0 + 40 * valueList.b.getD 1 0 + valueList.b.getD 2 0 + 1
  let s1 := streamOutputChainAppend s (pairValue / 256)
  if s1.status ≠ DmtxStatus.Encoding then s1 else
  let s2 := streamOutputChainAppend s1 (pairValue % 256)
  if s2.status ≠ DmtxStatus.Encoding then s2 else
  { s2 with outputChainValueCount := s2.outputChainValueCount + 3 }

/-- `EncodeUnlatchCTX`: emit the CTX unlatch codeword, only legal on a
triplet boundary. -/
def encodeUnlatchCTX (s : DmtxEncodeStream) : DmtxEncodeStream :=
  if ¬ isCTXScheme s.currentScheme then streamMarkFatal s 1 else
  if s.outputChainValueCount % 3 ≠ 0 then streamMarkInvalid s 1 else
  let s1 := streamOutputChainAppend s DmtxValueCTXUnlatch
  if s1.status ≠ DmtxStatus.Encoding then s1 else
  { s1 with outputChainValueCount := s1.outputChainValueCount + 1 }

/-- The character-table part of `PushCTXValues` (everything after the
upper-shift handling). -/
def pushCTXValuesBasic (valueList : DmtxByteList) (inputValue : Nat) (targetScheme : DmtxScheme) : DmtxByteList :=
  if targetScheme = DmtxScheme.X12 then
    if inputValue = 13 then (dmtxByteListPush valueList 0).1
    else if inputValue = 42 then (dmtxByteListPush valueList 1).1
    else if inputValue = 62 then (dmtxByteListPush valueList 2).1
    else if inputValue = 32 then (dmtxByteListPush valueList 3).1
    else if 48 ≤ inputValue ∧ inputValue ≤ 57 then (dmtxByteListPush valueList (inputValue - 44)).1
    else if 65 ≤ inputValue ∧ inputValue ≤ 90 then (dmtxByteListPush valueList (inputValue - 51)).1
    else valueList
  else
    if inputValue ≤ 31 then
      (dmtxByteListPush (dmtxByteListPush valueList DmtxValueCTXShift1).1 inputValue).1
    else if inputValue = 32 then (dmtxByteListPush valueList 3).1
    else if inputValue ≤ 47 then
      (dmtxByteListPush (dmtxByteListPush valueList DmtxValueCTXShift2).1 (inputValue - 33)).1
    else if inputValue ≤ 57 then (dmtxByteListPush valueList (inputValue - 44)).1
    else if inputValue ≤ 64 then
      (dmtxByteListPush (dmtxByteListPush valueList DmtxValueCTXShift2).1 (inputValue - 43)).1
    else if inputValue ≤ 90 ∧ targetScheme = DmtxScheme.C40 then
      (dmtxByteListPush valueList (inputValue - 51)).1
    else if inputValue ≤ 90 ∧ targetScheme = DmtxScheme.Text then
      (dmtxByteListPush (dmtxByteListPush valueList DmtxValueCTXShift3).1 (inputValue - 64)).1
    else if inputValue ≤ 95 then
      (dmtxByteListPush (dmtxByteListPush valueList DmtxValueCTXShift2).1 (inputValue - 69)).1
    else if inputValue = 96 ∧ targetScheme = DmtxScheme.Text then
      (dmtxByteListPush (dmtxByteListPush valueList DmtxValueCTXShift3).1 0).1
    else if inputValue ≤ 122 ∧ targetScheme = DmtxScheme.Text then
      (dmtxByteListPush valueList (inputValue - 83)).1
    else if inputValue ≤ 127 then
      (dmtxByteListPush (dmtxByteListPush valueList DmtxValueCTXShift3).1 (inputValue - 96)).1
    else valueList

/-- `PushCTXValues`: returns the extended value list and the pass/fail
result (`false` exactly in the X12 extended-ASCII case, where nothing is
pushed). -/
def pushCTXValues (valueList : DmtxByteList) (inputValue : Nat) (targetScheme : DmtxScheme) : DmtxByteList × Bool :=
  if 127 < inputValue then
    if targetScheme = DmtxScheme.X12 then
      (valueList, false)
    else
      let l1 := (dmtxByteListPush valueList DmtxValueCTXShift2).1
      let l2 := (dmtxByteListPush l1 30).1
      (pushCTXValuesBasic l2 (inputValue - 128) targetScheme, true)
  else
    (pushCTXValuesBasic valueList inputValue targetScheme, true)

/-- `EncodeValueEdifact`: pack one 6-bit value at the bit position given
by `outputChainValueCount mod 4`. -/
def encodeValueEdifact (s : DmtxEncodeStream) (value : Nat) : DmtxEncodeStream :=
  if s.currentScheme ≠ DmtxScheme.Edifact then streamMarkFatal s 1 else
  if value < 31 ∨ 94 < value then streamMarkInvalid s 2 else
  let edifactValue := (value % 256 &&& 63) <<< 2
  let k := s.outputChainValueCount % 4
  if k = 0 then
    let s1 := streamOutputChainAppend s edifactValue
    if s1.status ≠ DmtxStatus.Encoding then s1 else
    { s1 with outputChainValueCount := s1.outputChainValueCount + 1 }
  else if k = 1 then
    let p := streamOutputChainRemoveLast s
    if p.2.status ≠ DmtxStatus.Encoding then p.2 else
    let s1 := streamOutputChainAppend p.2 (p.1 ||| (edifactValue >>> 6))
    if s1.status ≠ DmtxStatus.Encoding then s1 else
    let s2 := streamOutputChainAppend s1 (edifactValue <<< 2)
    if s2.status ≠ DmtxStatus.Encoding then s2 else
    { s2 with outputChainValueCount := s2.outputChainValueCount + 1 }
  else if k = 2 then
    let p := streamOutputChainRemoveLast s
    if p.2.status ≠ DmtxStatus.Encoding then p.2 else
    let s1 := streamOutputChainAppend p.2 (p.1 ||| (edifactValue >>> 4))
    if s1.status ≠ DmtxStatus.Encoding then s1 else
    let s2 := streamOutputChainAppend s1 (edifactValue <<< 4)
    if s2.status ≠ DmtxStatus.Encoding then s2 else
    { s2 with outputChainValueCount := s2.outputChainValueCount + 1 }
  else
    let p := streamOutputChainRemoveLast s
    if p.2.status ≠ DmtxStatus.Encoding then p.2 else
    let s1 := streamOutputChainAppend p.2 (p.1 ||| (edifactValue >>> 2))
    if s1.status ≠ DmtxStatus.Encoding then s1 else
    { s1 with outputChainValueCount := s1.outputChainValueCount + 1 }

/-- The write phase of `UpdateBase256ChainHeader` (after the header
length was adjusted): encode the header byte(s) with the current chain
length, or the special perfect-fit zero header. -/
def base256WritePhase (t : SymbolTable) (s : DmtxEncodeStream) (headerByteCount : Int)
    (headerIndex : Int) (outputLength : Nat) (perfectSizeIdx : Option Nat) : DmtxEncodeStream :=
  match perfectSizeIdx with
  | some idx =>
    if headerByteCount = 1 then
      let headerValue0 := randomize255 0 (headerIndex + 1).toNat
      if (t.symbolDataWords idx : Int) ≠ (s.output.b.length : Int) then streamMarkFatal s 1
      else streamOutputSet s headerIndex headerValue0
    else streamMarkFatal s 1
  | none =>
    if headerByteCount = 1 then
      streamOutputSet s headerIndex (randomize255 outputLength (headerIndex + 1).toNat)
    else if headerByteCount = 2 then
      let s1 := streamOutputSet s headerIndex (randomize255 (outputLength / 250 + 249) (headerIndex + 1).toNat)
      if s1.status ≠ DmtxStatus.Encoding then s1 else
      streamOutputSet s1 (headerIndex + 1) (randomize255 (outputLength % 250) (headerIndex + 2).toNat)
    else streamMarkFatal s 1

/-- `UpdateBase256ChainHeader`: adjust the header length (insert the
placeholder, grow past 249 values, or shrink for the perfect fit), then
write the randomized header byte(s). -/
def updateBase256ChainHeader (t : SymbolTable) (s : DmtxEncodeStream) (perfectSizeIdx : Option Nat) : DmtxEncodeStream :=
  let headerIndex : Int := (s.output.b.length : Int) - s.outputChainWordCount
  let outputLength := s.outputChainValueCount
  let headerByteCount : Int := (s.outputChainWordCount : Int) - s.outputChainValueCount
  if headerByteCount = 0 ∧ s.outputChainWordCount = 0 then
    let s1 := streamOutputChainAppend s 0
    if s1.status ≠ DmtxStatus.Encoding then s1 else
    base256WritePhase t s1 (headerByteCount + 1) headerIndex outputLength perfectSizeIdx
  else if headerByteCount = 1 ∧ 249 < outputLength then
    let s1 := streamOutputChainInsertFirst s
    if s1.status ≠ DmtxStatus.Encoding then s1 else
    base256WritePhase t s1 (headerByteCount + 1) headerIndex outputLength perfectSizeIdx
  else if headerByteCount = 2 ∧ perfectSizeIdx.isSome then
    let s1 := streamOutputChainRemoveFirst s
    if s1.status ≠ DmtxStatus.Encoding then s1 else
    base256WritePhase t s1 (headerByteCount - 1) headerIndex outputLength perfectSizeIdx
  else
    base256WritePhase t s headerByteCount headerIndex outputLength perfectSizeIdx

/-- `EncodeChangeScheme`: unlatch the current scheme (when explicit),
pass through ASCII, emit the target's latch, reset the chain counters,
and insert the Base256 placeholder header when latching to Base256. -/
def encodeChangeScheme (t : SymbolTable) (s : DmtxEncodeStream) (targetScheme : DmtxScheme) (unlatchType : DmtxUnlatch) : DmtxEncodeStream :=
  if s.currentScheme = targetScheme then s else
  let s1 :=
    match s.currentScheme with
    | DmtxScheme.C40 | DmtxScheme.Text | DmtxScheme.X12 =>
        if unlatchType = DmtxUnlatch.Explicit then encodeUnlatchCTX s else s
    | DmtxScheme.Edifact =>
        if unlatchType = DmtxUnlatch.Explicit then encodeValueEdifact s DmtxValueEdifactUnlatch else s
    | _ => s
  if s1.status ≠ DmtxStatus.Encoding then s1 else
  let s2 := { s1 with currentScheme := DmtxScheme.Ascii }
  let s3 :=
    match targetScheme with
    | DmtxScheme.C40 => encodeValueAscii s2 DmtxValueC40Latch
    | DmtxScheme.Text => encodeValueAscii s2 DmtxValueTextLatch
    | DmtxScheme.X12 => encodeValueAscii s2 DmtxValueX12Latch
    | DmtxScheme.Edifact => encodeValueAscii s2 DmtxValueEdifactLatch
    | DmtxScheme.Base256 => encodeValueAscii s2 DmtxValueBase256Latch
    | DmtxScheme.Ascii => s2
  if s3.status ≠ DmtxStatus.Encoding then s3 else
  let s4 := { s3 with currentScheme := targetScheme, outputChainWordCount := 0, outputChainValueCount := 0 }
  if targetScheme = DmtxScheme.Base256 then updateBase256ChainHeader t s4 none else s4

/-- `CompleteIfDoneCTX`: perfect fit completes; otherwise, on exhausted
input, explicitly unlatch back to ASCII. -/
def completeIfDoneCTX (t : SymbolTable) (hint : Option Nat) (s : DmtxEncodeStream) : DmtxEncodeStream :=
  match t.findSymbolSize (s.output.b.length : Int) hint with
  | none => streamMarkInvalid s 1
  | some sizeIdx =>
    let symbolRemaining := getRemainingSymbolCapacity t (s.output.b.length : Int) sizeIdx
    if ¬ streamInputHasNext s then
      if symbolRemaining = 0 then streamMarkComplete s sizeIdx
      else encodeChangeScheme t s DmtxScheme.Ascii DmtxUnlatch.Explicit
    else s

/-- `CompleteIfDonePartialCTX`: with two leftover values and exactly two
symbol words remaining, Shift1-pad the triplet and complete; the other
cases are commented out in the source and do nothing.  The C `assert` on
the leftover count is modelled as a fatal error. -/
def completeIfDonePartialCTX (t : SymbolTable) (s : DmtxEncodeStream) (valueList : DmtxByteList) (hint : Option Nat) : DmtxEncodeStream :=
  if ¬ isCTXScheme s.currentScheme then streamMarkFatal s 1 else
  if ¬ (valueList.b.length = 1 ∨ valueList.b.length = 2) then streamMarkFatal s 1 else
  match t.findSymbolSize (s.output.b.length : Int) hint with
  | none => streamMarkInvalid s 1
  | some sizeIdx =>
    let symbolRemaining := getRemainingSymbolCapacity t (s.output.b.length : Int) sizeIdx
    if valueList.b.length = 2 ∧ symbolRemaining = 2 then
      let vl := (dmtxByteListPush valueList DmtxValueCTXShift1).1
      let s1 := encodeValuesCTX s vl
      if s1.status ≠ DmtxStatus.Encoding then s1 else
      streamMarkComplete s1 sizeIdx
    else s

/-- The inner `while(valueList.length >= 3)` loop of
`EncodeNextChunkCTX`.  The source never removes flushed values from the
list, so the loop only exits through a status change; the fuel bound is
benign because every successful iteration appends two output bytes into
a bounded buffer. -/
def ctxFlushLoop (fuel : Nat) (s : DmtxEncodeStream) (valueList : DmtxByteList) : DmtxEncodeStream :=
  match fuel with
  | 0 => s
  | f + 1 =>
    if 3 ≤ valueList.b.length then
      let s1 := encodeValuesCTX s valueList
      if s1.status ≠ DmtxStatus.Encoding then s1 else ctxFlushLoop f s1 valueList
    else s

/-- The outer input-consuming loop of `EncodeNextChunkCTX`.  Returns the
stream, the carried value list, and whether the function returned early
through a CHKERR (skipping the end-of-symbol tail). -/
def encodeNextChunkCTXLoop (fuel : Nat) (s : DmtxEncodeStream) (valueList : DmtxByteList) : DmtxEncodeStream × DmtxByteList :=
  match fuel with
  | 0 => (s, valueList)
  | f + 1 =>
    if streamInputHasNext s then
      let p := streamInputAdvanceNext s
      if p.2.status ≠ DmtxStatus.Encoding then (p.2, valueList) else
      let vl := (pushCTXValues valueList p.1 p.2.currentScheme).1
      if 3 ≤ vl.b.length then
        let s1 := ctxFlushLoop (p.2.output.capacity + 2) p.2 vl
        if s1.status ≠ DmtxStatus.Encoding then (s1, vl) else
        if vl.b.length = 0 then (s1, vl) else
        encodeNextChunkCTXLoop f s1 vl
      else
        if vl.b.length = 0 then (p.2, vl) else
        encodeNextChunkCTXLoop f p.2 vl
    else (s, valueList)

/-- `EncodeNextChunkCTX`: consume input into the 4-byte value list,
flushing full triplets, and handle the partial end-of-symbol case. -/
def encodeNextChunkCTX (t : SymbolTable) (hint : Option Nat) (s : DmtxEncodeStream) : DmtxEncodeStream :=
  let p := encodeNextChunkCTXLoop (s.input.length + 1) s (dmtxByteListBuild 4)
  if p.1.status ≠ DmtxStatus.Encoding then p.1 else
  if ¬ streamInputHasNext p.1 ∧ 0 < p.2.b.length then
    completeIfDonePartialCTX t p.1 p.2 hint
  else p.1

/-- `EncodeNextChunkEdifact`. -/
def encodeNextChunkEdifact (s : DmtxEncodeStream) : DmtxEncodeStream :=
  if streamInputHasNext s then
    let p := streamInputAdvanceNext s
    if p.2.status ≠ DmtxStatus.Encoding then p.2 else
    encodeValueEdifact p.2 p.1
  else s

/-- The bounded re-encode loop of `EncodeTmpRemainingInAscii`: encode
ASCII chunks while the scratch output has capacity and input remains
(deliberately without CHKERR).  Every iteration that runs advances the
input cursor, so the fuel bound is never the reason the loop stops. -/
def encodeTmpLoop (fuel : Nat) (s : DmtxEncodeStream) : DmtxEncodeStream :=
  match fuel with
  | 0 => s
  | f + 1 =>
    if dmtxByteListHasCapacity s.output then
      if streamInputHasNext s then encodeTmpLoop f (encodeNextChunkAscii s) else s
    else s

/-- `EncodeTmpRemainingInAscii`: build a temporary copy of the stream
writing into a fresh bounded scratch buffer, re-encode the remaining
input in ASCII there, and return the untouched real stream together with
the scratch output and the pass/fail flag. -/
def encodeTmpRemainingInAscii (s : DmtxEncodeStream) (capacity : Nat) : DmtxEncodeStream × DmtxByteList × Bool :=
  let streamAscii : DmtxEncodeStream :=
    { s with
        currentScheme := DmtxScheme.Ascii,
        outputChainValueCount := 0,
        outputChainWordCount := 0,
        reason := none,
        sizeIdx := none,
        status := DmtxStatus.Encoding,
        output := dmtxByteListBuild capacity }
  let fin := encodeTmpLoop (s.input.length + 1) streamAscii
  (s, fin.output, fin.status = DmtxStatus.Encoding)

/-- The `for` loop in `CompleteIfDoneEdifact` appending the probed ASCII
codewords to the real stream, with CHKERR after each append. -/
def appendValuesAscii (s : DmtxEncodeStream) : List Nat → DmtxEncodeStream
  | [] => s
  | v :: rest =>
    let s1 := encodeValueAscii s v
    if s1.status ≠ DmtxStatus.Encoding then s1 else appendValuesAscii s1 rest

/-- `CompleteIfDoneEdifact`: on exhausted input, unlatch-and-pad unless
sitting on a clean boundary of a full symbol; otherwise probe whether
the remaining input fits in 1 or 2 ASCII codewords and finish in ASCII
with an implicit unlatch. -/
def completeIfDoneEdifact (t : SymbolTable) (hint : Option Nat) (s : DmtxEncodeStream) : DmtxEncodeStream :=
  let cleanBoundary := s.outputChainValueCount % 4 = 0
  match t.findSymbolSize (s.output.b.length : Int) hint with
  | none => streamMarkInvalid s 1
  | some sizeIdx =>
    let symbolRemaining := getRemainingSymbolCapacity t (s.output.b.length : Int) sizeIdx
    if ¬ streamInputHasNext s then
      if ¬ cleanBoundary ∨ 0 < symbolRemaining then
        let s1 := encodeChangeScheme t s DmtxScheme.Ascii DmtxUnlatch.Explicit
        if s1.status ≠ DmtxStatus.Encoding then s1 else
        match t.findSymbolSize (s1.output.b.length : Int) hint with
        | none => streamMarkInvalid s1 1
        | some sizeIdx2 =>
          let s2 := padRemainingInAscii t s1 (some sizeIdx2)
          if s2.status ≠ DmtxStatus.Encoding then s2 else
          streamMarkComplete s2 sizeIdx2
      else
        streamMarkComplete s sizeIdx
    else
      let tmp := encodeTmpRemainingInAscii s 3
      let outputTmp := tmp.2.1
      let passFail := tmp.2.2
      if passFail = false ∨ symbolRemaining < (outputTmp.b.length : Int) then s
      else if cleanBoundary ∧ (outputTmp.b.length = 1 ∨ outputTmp.b.length = 2) then
        let s1 := encodeChangeScheme t s DmtxScheme.Ascii DmtxUnlatch.Implicit
        if s1.status ≠ DmtxStatus.Encoding then s1 else
        let s2 := appendValuesAscii s1 outputTmp.b
        if s2.status ≠ DmtxStatus.Encoding then s2 else
        let s3 := { s2 with inputNext := s2.input.length }
        let s4 := padRemainingInAscii t s3 (some sizeIdx)
        if s4.status ≠ DmtxStatus.Encoding then s4 else
        streamMarkComplete s4 sizeIdx
      else s

/-- `EncodeValueBase256`: append the position-randomized byte, count the
value, and refresh the chain header. -/
def encodeValueBase256 (t : SymbolTable) (s : DmtxEncodeStream) (value : Nat) : DmtxEncodeStream :=
  if s.currentScheme ≠ DmtxScheme.Base256 then streamMarkFatal s 1 else
  let s1 := streamOutputChainAppend s (randomize255 value (s.output.b.length + 1))
  if s1.status ≠ DmtxStatus.Encoding then s1 else
  let s2 := { s1 with outputChainValueCount := s1.outputChainValueCount + 1 }
  updateBase256ChainHeader t s2 none

/-- `EncodeNextChunkBase256`. -/
def encodeNextChunkBase256 (t : SymbolTable) (s : DmtxEncodeStream) : DmtxEncodeStream :=
  if streamInputHasNext s then
    let p := streamInputAdvanceNext s
    if p.2.status ≠ DmtxStatus.Encoding then p.2 else
    encodeValueBase256 t p.2 p.1
  else s

/-- `CompleteIfDoneBase256`: try the perfect-fit single-header special
case, else unlatch implicitly and pad (the source deliberately lacks
CHKERR between those last calls).  The C `assert` on the header length
is modelled as a fatal error. -/
def completeIfDoneBase256 (t : SymbolTable) (hint : Option Nat) (s : DmtxEncodeStream) : DmtxEncodeStream :=
  if streamInputHasNext s then s else
  let headerByteCount : Int := (s.outputChainWordCount : Int) - s.outputChainValueCount
  if ¬ (headerByteCount = 1 ∨ headerByteCount = 2) then streamMarkFatal s 1 else
  let perfect : Option Nat :=
    if headerByteCount = 2 then
      match t.findSymbolSize ((s.output.b.length : Int) - 1) hint with
      | some idx =>
          if getRemainingSymbolCapacity t ((s.output.b.length : Int) - 1) idx = 0 then some idx
          else none
      | none => none
    else none
  match perfect with
  | some idx =>
    let s1 := updateBase256ChainHeader t s (some idx)
    if s1.status ≠ DmtxStatus.Encoding then s1 else
    streamMarkComplete s1 idx
  | none =>
    match t.findSymbolSize (s.output.b.length : Int) hint with
    | none => streamMarkInvalid s 1
    | some sizeIdx =>
      let s1 := encodeChangeScheme t s DmtxScheme.Ascii DmtxUnlatch.Implicit
      let s2 := padRemainingInAscii t s1 (some sizeIdx)
      streamMarkComplete s2 sizeIdx

/-- `EncodeNextChunk`: switch to the target scheme if necessary, then
dispatch to the scheme's chunk encoder and completion check. -/
def encodeNextChunk (t : SymbolTable) (targetScheme : DmtxScheme) (hint : Option Nat) (s : DmtxEncodeStream) : DmtxEncodeStream :=
  let s0 :=
    if s.currentScheme ≠ targetScheme then
      encodeChangeScheme t s targetScheme DmtxUnlatch.Explicit
    else s
  if s0.status ≠ DmtxStatus.Encoding then s0 else
  if s0.currentScheme ≠ targetScheme then streamMarkFatal s0 1 else
  match s0.currentScheme with
  | DmtxScheme.Ascii =>
    let s1 := encodeNextChunkAscii s0
    if s1.status ≠ DmtxStatus.Encoding then s1 else
    completeIfDoneAscii t hint s1
  | DmtxScheme.C40 | DmtxScheme.Text | DmtxScheme.X12 =>
    let s1 := encodeNextChunkCTX t hint s0
    if s1.status ≠ DmtxStatus.Encoding then s1 else
    completeIfDoneCTX t hint s1
  | DmtxScheme.Edifact =>
    let s1 := encodeNextChunkEdifact s0
    if s1.status ≠ DmtxStatus.Encoding then s1 else
    completeIfDoneEdifact t hint s1
  | DmtxScheme.Base256 =>
    let s1 := encodeNextChunkBase256 t s0
    if s1.status ≠ DmtxStatus.Encoding then s1 else
    completeIfDoneBase256 t hint s1

/-- The `while(status == Encoding)` loop of `EncodeSingleScheme2`,
unrolled on fuel.  For the ASCII scheme every iteration either consumes
input or reaches a terminal status, so `input.length + 2` iterations
always suffice. -/
def encodeLoop (t : SymbolTable) (targetScheme : DmtxScheme) (hint : Option Nat) (fuel : Nat) (s : DmtxEncodeStream) : DmtxEncodeStream :=
  match fuel with
  | 0 => s
  | f + 1 =>
    if s.status = DmtxStatus.Encoding then
      encodeLoop t targetScheme hint f (encodeNextChunk t targetScheme hint s)
    else s

/-- `EncodeSingleScheme2`: requires the stream to start in ASCII and
runs the encode loop to a terminal status. -/
def encodeSingleScheme2 (t : SymbolTable) (targetScheme : DmtxScheme) (hint : Option Nat) (s : DmtxEncodeStream) : DmtxEncodeStream :=
  if s.currentScheme ≠ DmtxScheme.Ascii then streamMarkFatal s 1
  else encodeLoop t targetScheme hint (s.input.length + 2) s

/-- Modelled from the spec: the entry point binds the input to a fresh
stream in the ASCII scheme with an empty output buffer of the caller's
capacity (spec sections 3 and 6). -/
def initStream (input : List Nat) (outputCapacity : Nat) : DmtxEncodeStream :=
  { input := input
    inputNext := 0
    output := dmtxByteListBuild outputCapacity
    currentScheme := DmtxScheme.Ascii
    outputChainWordCount := 0
    outputChainValueCount := 0
    status := DmtxStatus.Encoding
    reason := none
    sizeIdx := none }

/-- A small concrete symbol table (a single symbol size holding five
data words) used to instantiate witnesses. -/
def tinyTable : SymbolTable :=
  { symbolDataWords := fun _ => 5
    findSymbolSize := fun n _ => if n ≤ 5 then some 0 else none }

/-- The tiny table satisfies the `find_symbol_size` contract. -/
theorem tinyTable_valid : tinyTable.Valid := by
  intro n hint idx h
  simp only [tinyTable] at h ⊢
  split at h
  · simp_all
  · simp at h

/-- Closed form of `Randomize253State2` for byte-sized inputs. -/
theorem randomize253_closed_form (v pos : Nat) (hv : v ≤ 255) :
    randomize253 v pos = (v + (149 * pos) % 253) % 254 + 1 := by
  simp only [randomize253]
  split <;> omega

/-- C7 counterexample: the claimed formula
`((v + ((149*pos) mod 253) + 1) - 1) mod 254` disagrees with
`Randomize253State2` already at `v = 0`, `pos = 1` (the code yields 150,
the formula 149): the code's conditional subtraction of 254 from
`v + pseudoRandom` re-baselines to `[1, 254]`, one above the formula. -/
theorem randomize253_claim_formula_counterexample :
    ¬ (randomize253 0 1 = ((0 + (149 * 1) % 253 + 1) - 1) % 254 ∧
       randomize253 0 1 ≤ 253) := by
  decide

/-- C7 (amended): for every byte `v` and position `pos ≥ 1`,
`Randomize253State2(v, pos)` equals
`(((v + ((149*pos) mod 253) + 1) - 1) mod 254) + 1` and lies in
`[1, 254]`. -/
theorem randomize253_formula (v pos : Nat) (hv : v ≤ 255) (hpos : 1 ≤ pos) :
    randomize253 v pos = ((v + (149 * pos) % 253 + 1) - 1) % 254 + 1 ∧
    1 ≤ randomize253 v pos ∧ randomize253 v pos ≤ 254 := by
  refine ⟨?_, ?_, ?_⟩ <;> (simp only [randomize253]; split <;> omega)

/-- Witness for the amended C7 formula at `v = 129`, `pos = 1`. -/
theorem randomize253_formula_witness :
    randomize253 129 1 = ((129 + (149 * 1) % 253 + 1) - 1) % 254 + 1 ∧
    1 ≤ randomize253 129 1 ∧ randomize253 129 1 ≤ 254 :=
  randomize253_formula 129 1 (by decide) (by decide)

/-- C10: the reduced sum computed by `Randomize253State2` always lies in
`[1, 254]` for byte values and positive positions, so the internal
assertion `0 ≤ tmp < 256` never fails and a randomized pad byte is never
zero. -/
theorem randomize253_assert_range (v pos : Nat) (hv : v ≤ 255) (hpos : 1 ≤ pos) :
    (1 ≤ randomize253 v pos ∧ randomize253 v pos ≤ 254) ∧
    randomize253 v pos < 256 ∧
    randomize253 DmtxValueAsciiPad pos ≠ 0 := by
  refine ⟨⟨?_, ?_⟩, ?_, ?_⟩ <;>
    (simp only [randomize253, DmtxValueAsciiPad]; split <;> omega)

/-- Witness for C10 at `v = 200`, `pos = 7`. -/
theorem randomize253_assert_range_witness :
    (1 ≤ randomize253 200 7 ∧ randomize253 200 7 ≤ 254) ∧
    randomize253 200 7 < 256 ∧
    randomize253 DmtxValueAsciiPad 7 ≠ 0 :=
  randomize253_assert_range 200 7 (by decide) (by decide)

/-- C9: `EncodeTmpRemainingInAscii` is a pure probe.  The temporary
stream is a copy redirected into fresh scratch storage, so the real
stream returned by the function is identical to the input stream in
every component: output, input cursor, scheme, status and both chain
counters, whether or not the probe passes. -/
theorem encodeTmpRemainingInAscii_frame (s : DmtxEncodeStream) (capacity : Nat) :
    (encodeTmpRemainingInAscii s capacity).1.output = s.output ∧
    (encodeTmpRemainingInAscii s capacity).1.inputNext = s.inputNext ∧
    (encodeTmpRemainingInAscii s capacity).1.currentScheme = s.currentScheme ∧
    (encodeTmpRemainingInAscii s capacity).1.status = s.status ∧
    (encodeTmpRemainingInAscii s capacity).1.outputChainValueCount = s.outputChainValueCount ∧
    (encodeTmpRemainingInAscii s capacity).1.outputChainWordCount = s.outputChainWordCount ∧
    (encodeTmpRemainingInAscii s capacity).1 = s :=
  ⟨rfl, rfl, rfl, rfl, rfl, rfl, rfl⟩

/-- Appending below capacity has the obvious effect. -/
theorem streamOutputChainAppend_of_lt (s : DmtxEncodeStream) (v : Nat)
    (h : s.output.b.length < s.output.capacity) :
    streamOutputChainAppend s v =
      { s with
          output := { capacity := s.output.capacity, b := s.output.b ++ [v % 256] },
          outputChainWordCount := s.outputChainWordCount + 1 } := by
  simp [streamOutputChainAppend, h]

/-- `streamInputHasNext` is the cursor bound check. -/
theorem streamInputHasNext_iff (s : DmtxEncodeStream) :
    streamInputHasNext s = true ↔ s.inputNext < s.input.length := by
  simp [streamInputHasNext]

/-- Advancing with a byte under the cursor. -/
theorem streamInputAdvanceNext_some (s : DmtxEncodeStream) (v : Nat)
    (h : s.input[s.inputNext]? = some v) :
    streamInputAdvanceNext s = (v, { s with inputNext := s.inputNext + 1 }) := by
  simp [streamInputAdvanceNext, h]

/-- Peeking with a byte under the cursor. -/
theorem streamInputPeekNext_some (s : DmtxEncodeStream) (v : Nat)
    (h : s.input[s.inputNext]? = some v) :
    streamInputPeekNext s = (v, s) := by
  simp [streamInputPeekNext, h]

/-- A defined `get?` bounds the index. -/
theorem get?_some_lt {l : List Nat} {n v : Nat} (h : l[n]? = some v) :
    n < l.length := by
  by_contra hc
  rw [List.getElem?_eq_none_iff.mpr (by omega)] at h
  exact Option.noConfusion h

/-- C3: `EncodeValuesCTX` on a three-value list of CTX values appends
exactly the two codewords `(P / 256, P mod 256)` of
`P = 1600*v0 + 40*v1 + v2 + 1` and advances the chain value count by
exactly 3. -/
theorem encodeValuesCTX_spec (s : DmtxEncodeStream) (valueList : DmtxByteList)
    (v0 v1 v2 : Nat)
    (hstatus : s.status = DmtxStatus.Encoding)
    (hscheme : isCTXScheme s.currentScheme = true)
    (hb : valueList.b = [v0, v1, v2])
    (h0 : v0 ≤ 39) (h1 : v1 ≤ 39) (h2 : v2 ≤ 39)
    (hcap : s.output.b.length + 2 ≤ s.output.capacity) :
    (encodeValuesCTX s valueList).output.b =
      s.output.b ++ [(1600 * v0 + 40 * v1 + v2 + 1) / 256,
                     (1600 * v0 + 40 * v1 + v2 + 1) % 256] ∧
    (encodeValuesCTX s valueList).outputChainValueCount = s.outputChainValueCount + 3 ∧
    (encodeValuesCTX s valueList).status = DmtxStatus.Encoding := by
  have hdiv : (1600 * v0 + 40 * v1 + v2 + 1) / 256 % 256 = (1600 * v0 + 40 * v1 + v2 + 1) / 256 := by
    omega
  have hmod : (1600 * v0 + 40 * v1 + v2 + 1) % 256 % 256 = (1600 * v0 + 40 * v1 + v2 + 1) % 256 := by
    omega
  simp only [encodeValuesCTX, hscheme, hb, not_true_eq_false, if_false,
    List.length_cons, List.length_nil, List.getD, List.getD_cons_zero,
    List.getD_cons_succ]
  rw [streamOutputChainAppend_of_lt _ _ (by omega)]
  simp only [hstatus]
  rw [streamOutputChainAppend_of_lt _ _ (by simp; omega)]
  simp_all

/-- Witness for C3 with the triplet `(14, 22, 26)` (spec scenario S4):
`P = 23307` packs as the codeword pair `(91, 11)`. -/
theorem encodeValuesCTX_spec_witness :
    (encodeValuesCTX { initStream [] 12 with currentScheme := DmtxScheme.C40 }
        { capacity := 4, b := [14, 22, 26] }).output.b = [] ++ [91, 11] ∧
    (encodeValuesCTX { initStream [] 12 with currentScheme := DmtxScheme.C40 }
        { capacity := 4, b := [14, 22, 26] }).outputChainValueCount = 0 + 3 ∧
    (encodeValuesCTX { initStream [] 12 with currentScheme := DmtxScheme.C40 }
        { capacity := 4, b := [14, 22, 26] }).status = DmtxStatus.Encoding := by
  have h := encodeValuesCTX_spec
    { initStream [] 12 with currentScheme := DmtxScheme.C40 }
    { capacity := 4, b := [14, 22, 26] } 14 22 26 rfl rfl rfl
    (by decide) (by decide) (by decide) (by decide)
  simpa using h

/-- C6 (code divergence): with target scheme X12 and an extended-ASCII
next byte (`v > 127`), `PushCTXValues` returns fail without pushing any
value, `EncodeNextChunkCTX` ignores that result, and the stream comes
back with the byte consumed, the output untouched and the status still
`Encoding` — it is never marked `Invalid` as the specification
requires. -/
theorem encodeNextChunkCTX_x12_extended_silent (t : SymbolTable) (hint : Option Nat)
    (s : DmtxEncodeStream) (v : Nat)
    (hstatus : s.status = DmtxStatus.Encoding)
    (hscheme : s.currentScheme = DmtxScheme.X12)
    (hv : s.input[s.inputNext]? = some v)
    (h127 : 127 < v) :
    encodeNextChunkCTX t hint s = { s with inputNext := s.inputNext + 1 } ∧
    (encodeNextChunkCTX t hint s).status = DmtxStatus.Encoding ∧
    (encodeNextChunkCTX t hint s).output = s.output ∧
    (∀ vl : DmtxByteList, pushCTXValues vl v DmtxScheme.X12 = (vl, false)) := by
  have hnext : streamInputHasNext s = true := (streamInputHasNext_iff s).mpr (get?_some_lt hv)
  have hpush : ∀ vl : DmtxByteList, pushCTXValues vl v DmtxScheme.X12 = (vl, false) := by
    intro vl
    simp [pushCTXValues, h127]
  have hmain : encodeNextChunkCTX t hint s = { s with inputNext := s.inputNext + 1 } := by
    simp only [encodeNextChunkCTX, encodeNextChunkCTXLoop, hnext, if_true,
      streamInputAdvanceNext, hv, hstatus]
    simp only [hscheme, hpush]
    simp [hstatus, dmtxByteListBuild]
  refine ⟨hmain, ?_, ?_, hpush⟩ <;> rw [hmain] <;> simp [hstatus]

/-- Witness for C6: on the one-byte input 128 in scheme X12, the chunk
encoder just advances the cursor, leaving output and status untouched. -/
theorem encodeNextChunkCTX_x12_extended_silent_witness :
    encodeNextChunkCTX tinyTable none
        { initStream [128] 12 with currentScheme := DmtxScheme.X12 } =
      { { initStream [128] 12 with currentScheme := DmtxScheme.X12 } with
          inputNext := ({ initStream [128] 12 with
            currentScheme := DmtxScheme.X12 } : DmtxEncodeStream).inputNext + 1 } :=
  (encodeNextChunkCTX_x12_extended_silent tinyTable none
    { initStream [128] 12 with currentScheme := DmtxScheme.X12 } 128
    (by decide) (by decide) (by decide) (by decide)).1

/-- The single-byte ASCII tail for a regular char appends `v0 + 1`. -/
theorem encodeNextChunkAsciiSingle_low (s : DmtxEncodeStream) (v0 : Nat)
    (hstatus : s.status = DmtxStatus.Encoding)
    (hscheme : s.currentScheme = DmtxScheme.Ascii)
    (hcap : s.output.b.length < s.output.capacity)
    (hlow : v0 < 128) :
    encodeNextChunkAsciiSingle s v0 =
      { s with
          output := { capacity := s.output.capacity, b := s.output.b ++ [v0 + 1] },
          outputChainWordCount := s.outputChainWordCount + 1,
          outputChainValueCount := s.outputChainValueCount + 1 } := by
  have hm : (v0 + 1) % 256 = v0 + 1 := by omega
  simp only [encodeNextChunkAsciiSingle, hlow, if_true, encodeValueAscii, hscheme,
    ne_eq, not_true_eq_false, if_false]
  rw [streamOutputChainAppend_of_lt _ _ hcap]
  simp [hstatus, hscheme, hm]

/-- The single-byte ASCII tail for an extended char appends the upper
shift and `v0 - 127`. -/
theorem encodeNextChunkAsciiSingle_high (s : DmtxEncodeStream) (v0 : Nat)
    (hstatus : s.status = DmtxStatus.Encoding)
    (hscheme : s.currentScheme = DmtxScheme.Ascii)
    (hcap : s.output.b.length + 2 ≤ s.output.capacity)
    (hhigh : 128 ≤ v0) (hv255 : v0 ≤ 255) :
    encodeNextChunkAsciiSingle s v0 =
      { s with
          output := { capacity := s.output.capacity,
                      b := s.output.b ++ [DmtxValueAsciiUpperShift, v0 - 127] },
          outputChainWordCount := s.outputChainWordCount + 2,
          outputChainValueCount := s.outputChainValueCount + 2 } := by
  have h1 : DmtxValueAsciiUpperShift % 256 = DmtxValueAsciiUpperShift := by decide
  have h2 : (v0 - 127) % 256 = v0 - 127 := by omega
  simp only [encodeNextChunkAsciiSingle, encodeValueAscii, hscheme,
    ne_eq, not_true_eq_false, if_false]
  rw [if_neg (by omega)]
  rw [streamOutputChainAppend_of_lt _ _ (by omega)]
  simp only [hstatus, if_true, reduceIte]
  rw [streamOutputChainAppend_of_lt _ _ (by simp; omega)]
  simp [hstatus, hscheme, h1, h2]

/-- C1: one `EncodeNextChunkAscii` step with input remaining.  Two
adjacent digits produce the single codeword `10*d1 + d2 + 130` and
consume both bytes; otherwise a byte `v ≤ 127` produces the single
codeword `v + 1`, and a byte in `[128, 255]` produces the upper shift
235 followed by `v - 127`, consuming one byte. -/
theorem encodeNextChunkAscii_spec (s : DmtxEncodeStream) (v0 : Nat)
    (hstatus : s.status = DmtxStatus.Encoding)
    (hscheme : s.currentScheme = DmtxScheme.Ascii)
    (hv0 : s.input[s.inputNext]? = some v0)
    (hcap : s.output.b.length + 2 ≤ s.output.capacity) :
    (∀ v1, s.input[s.inputNext + 1]? = some v1 →
      isDigit v0 = true → isDigit v1 = true →
      (encodeNextChunkAscii s).output.b = s.output.b ++ [10 * (v0 - 48) + (v1 - 48) + 130] ∧
      (encodeNextChunkAscii s).inputNext = s.inputNext + 2 ∧
      (encodeNextChunkAscii s).outputChainValueCount = s.outputChainValueCount + 1 ∧
      (encodeNextChunkAscii s).status = DmtxStatus.Encoding) ∧
    ((isDigit v0 = false ∨
        (∀ v1, s.input[s.inputNext + 1]? = some v1 → isDigit v1 = false)) →
      v0 < 128 →
      (encodeNextChunkAscii s).output.b = s.output.b ++ [v0 + 1] ∧
      (encodeNextChunkAscii s).inputNext = s.inputNext + 1 ∧
      (encodeNextChunkAscii s).outputChainValueCount = s.outputChainValueCount + 1 ∧
      (encodeNextChunkAscii s).status = DmtxStatus.Encoding) ∧
    (128 ≤ v0 → v0 ≤ 255 →
      (encodeNextChunkAscii s).output.b = s.output.b ++ [DmtxValueAsciiUpperShift, v0 - 127] ∧
      (encodeNextChunkAscii s).inputNext = s.inputNext + 1 ∧
      (encodeNextChunkAscii s).outputChainValueCount = s.outputChainValueCount + 2 ∧
      (encodeNextChunkAscii s).status = DmtxStatus.Encoding) := by
  obtain ⟨inp, inext, ⟨cap, ob⟩, sch, wc, vc, st, rsn, szi⟩ := s
  dsimp only at hstatus hscheme hv0 hcap ⊢
  subst hstatus
  subst hscheme
  have hlt0 : inext < inp.length := get?_some_lt hv0
  have hc1 : ob.length < cap := by omega
  refine ⟨?_, ?_, ?_⟩
  · intro v1 hv1 hd0 hd1
    have hb0 : 48 ≤ v0 ∧ v0 ≤ 57 := by simpa [isDigit] using hd0
    have hb1 : 48 ≤ v1 ∧ v1 ≤ 57 := by simpa [isDigit] using hd1
    have hlt1 : inext + 1 < inp.length := get?_some_lt hv1
    have hm : (10 * (v0 - 48) + (v1 - 48) + 130) % 256 = 10 * (v0 - 48) + (v1 - 48) + 130 := by
      omega
    simp only [encodeNextChunkAscii, streamInputHasNext, streamInputAdvanceNext,
      streamInputPeekNext, encodeValueAscii, streamOutputChainAppend]
    simp [hv0, hv1, hlt0, hlt1, hd0, hd1, hc1, hm]
  · intro hnd hlow
    have hm : (v0 + 1) % 256 = v0 + 1 := by omega
    by_cases h1 : inext + 1 < inp.length
    · obtain ⟨v1, hv1⟩ : ∃ v1, inp[inext + 1]? = some v1 := by
        cases hg : inp[inext + 1]? with
        | none => rw [List.getElem?_eq_none_iff] at hg; omega
        | some u => exact ⟨u, rfl⟩
      have hfalse : (isDigit v0 && isDigit v1) = false := by
        rcases hnd with h | h
        · simp [h]
        · simp [h v1 hv1]
      simp [encodeNextChunkAscii, streamInputHasNext, streamInputAdvanceNext,
        streamInputPeekNext, encodeNextChunkAsciiSingle, encodeValueAscii,
        streamOutputChainAppend, hv0, hv1, hlt0, h1, hfalse, hc1, hm, hlow]
    · simp [encodeNextChunkAscii, streamInputHasNext, streamInputAdvanceNext,
        streamInputPeekNext, encodeNextChunkAsciiSingle, encodeValueAscii,
        streamOutputChainAppend, hv0, hlt0, h1, hc1, hm, hlow]
  · intro hhigh hv255
    have hd0 : isDigit v0 = false := by simp [isDigit]; omega
    have hm1 : DmtxValueAsciiUpperShift % 256 = 235 := by decide
    have hm2 : (v0 - 127) % 256 = v0 - 127 := by omega
    have hnlow : ¬ v0 < 128 := by omega
    have hc2 : ob.length + 1 < cap := by omega
    by_cases h1 : inext + 1 < inp.length
    · obtain ⟨v1, hv1⟩ : ∃ v1, inp[inext + 1]? = some v1 := by
        cases hg : inp[inext + 1]? with
        | none => rw [List.getElem?_eq_none_iff] at hg; omega
        | some u => exact ⟨u, rfl⟩
      have hfalse : (isDigit v0 && isDigit v1) = false := by
        simp [hd0]
      simp [encodeNextChunkAscii, streamInputHasNext, streamInputAdvanceNext,
        streamInputPeekNext, encodeNextChunkAsciiSingle, encodeValueAscii,
        streamOutputChainAppend, hv0, hv1, hlt0, h1, hfalse, hnlow, hc1, hc2,
        hm1, hm2, DmtxValueAsciiUpperShift]
    · simp [encodeNextChunkAscii, streamInputHasNext, streamInputAdvanceNext,
        streamInputPeekNext, encodeNextChunkAsciiSingle, encodeValueAscii,
        streamOutputChainAppend, hv0, hlt0, h1, hd0, hnlow, hc1, hc2,
        hm1, hm2, DmtxValueAsciiUpperShift]

/-- Witness for C1 on the input `"5Ax"` at cursor 0: `(53, 65)` is not a
digit pair, so the single codeword 54 is emitted. -/
theorem encodeNextChunkAscii_spec_witness :
    (isDigit 65 = false) ∧
    ((encodeNextChunkAscii (initStream [53, 65, 120] 8)).output.b = [] ++ [53 + 1] ∧
     (encodeNextChunkAscii (initStream [53, 65, 120] 8)).inputNext = 0 + 1 ∧
     (encodeNextChunkAscii (initStream [53, 65, 120] 8)).outputChainValueCount = 0 + 1 ∧
     (encodeNextChunkAscii (initStream [53, 65, 120] 8)).status = DmtxStatus.Encoding) := by
  refine ⟨by decide, ?_⟩
  have h := (encodeNextChunkAscii_spec (initStream [53, 65, 120] 8) 53 rfl rfl (by decide)
    (by decide)).2.1
  refine h (Or.inr ?_) (by decide)
  intro v1 hv1
  have h65 : (65 : Nat) = v1 := by simpa [initStream, dmtxByteListBuild] using hv1
  subst h65
  decide

/-- Removing the last chain byte when the chain is nonempty. -/
theorem streamOutputChainRemoveLast_some (s : DmtxEncodeStream) (w : Nat)
    (hwc : 0 < s.outputChainWordCount) (hw : s.output.b.getLast? = some w) :
    streamOutputChainRemoveLast s =
      (w, { s with
              output := { capacity := s.output.capacity, b := s.output.b.dropLast },
              outputChainWordCount := s.outputChainWordCount - 1 }) := by
  simp [streamOutputChainRemoveLast, hwc, hw]

/-- C4: `EncodeValueEdifact` on a value in `[31, 94]` with
`ev = (v &&& 0x3F) <<< 2`, by phase `outputChainValueCount mod 4`:
phase 0 appends `ev`; phase 1 ORs the last byte with `ev >>> 6` and
appends `ev <<< 2` (as a byte); phase 2 ORs the last byte with
`ev >>> 4` and appends `ev <<< 4` (as a byte); phase 3 ORs the last byte
with `ev >>> 2` and appends nothing.  Every phase increments the chain
value count by one, and the output length grows by one in phases 0 to 2
and is unchanged in phase 3. -/
theorem encodeValueEdifact_spec (s : DmtxEncodeStream) (v : Nat)
    (hstatus : s.status = DmtxStatus.Encoding)
    (hscheme : s.currentScheme = DmtxScheme.Edifact)
    (hlo : 31 ≤ v) (hhi : v ≤ 94)
    (hcap : s.output.b.length + 2 ≤ s.output.capacity) :
    (s.outputChainValueCount % 4 = 0 →
      (encodeValueEdifact s v).output.b = s.output.b ++ [(v &&& 63) <<< 2] ∧
      (encodeValueEdifact s v).outputChainValueCount = s.outputChainValueCount + 1 ∧
      (encodeValueEdifact s v).output.b.length = s.output.b.length + 1 ∧
      (encodeValueEdifact s v).status = DmtxStatus.Encoding) ∧
    (∀ w, s.outputChainValueCount % 4 = 1 → 0 < s.outputChainWordCount →
      s.output.b.getLast? = some w → w < 256 →
      (encodeValueEdifact s v).output.b =
        s.output.b.dropLast ++
          [w ||| ((v &&& 63) <<< 2 >>> 6), ((v &&& 63) <<< 2 <<< 2) % 256] ∧
      (encodeValueEdifact s v).outputChainValueCount = s.outputChainValueCount + 1 ∧
      (encodeValueEdifact s v).output.b.length = s.output.b.length + 1 ∧
      (encodeValueEdifact s v).status = DmtxStatus.Encoding) ∧
    (∀ w, s.outputChainValueCount % 4 = 2 → 0 < s.outputChainWordCount →
      s.output.b.getLast? = some w → w < 256 →
      (encodeValueEdifact s v).output.b =
        s.output.b.dropLast ++
          [w ||| ((v &&& 63) <<< 2 >>> 4), ((v &&& 63) <<< 2 <<< 4) % 256] ∧
      (encodeValueEdifact s v).outputChainValueCount = s.outputChainValueCount + 1 ∧
      (encodeValueEdifact s v).output.b.length = s.output.b.length + 1 ∧
      (encodeValueEdifact s v).status = DmtxStatus.Encoding) ∧
    (∀ w, s.outputChainValueCount % 4 = 3 → 0 < s.outputChainWordCount →
      s.output.b.getLast? = some w → w < 256 →
      (encodeValueEdifact s v).output.b =
        s.output.b.dropLast ++ [w ||| ((v &&& 63) <<< 2 >>> 2)] ∧
      (encodeValueEdifact s v).outputChainValueCount = s.outputChainValueCount + 1 ∧
      (encodeValueEdifact s v).output.b.length = s.output.b.length ∧
      (encodeValueEdifact s v).status = DmtxStatus.Encoding) := by
  obtain ⟨inp, inext, ⟨cap, ob⟩, sch, wc, vc, st, rsn, szi⟩ := s
  dsimp only at hstatus hscheme hcap ⊢
  subst hstatus
  subst hscheme
  have hvm : v % 256 = v := by omega
  have hrange : ¬ (v < 31 ∨ 94 < v) := by omega
  have hand : v &&& 63 ≤ 63 := Nat.and_le_right
  have hev252 : (v &&& 63) <<< 2 ≤ 252 := by rw [Nat.shiftLeft_eq]; omega
  refine ⟨?_, ?_, ?_, ?_⟩
  · intro hk
    have hevm : ((v &&& 63) <<< 2) % 256 = (v &&& 63) <<< 2 := by omega
    simp [encodeValueEdifact, streamOutputChainAppend, hrange, hvm, hk, hevm,
      (by omega : ob.length < cap)]
  · intro w hk hwc hw hwlt
    have hne : ob ≠ [] := by intro h; rw [h] at hw; exact Option.noConfusion hw
    have hlen : 1 ≤ ob.length := List.length_pos.mpr hne
    have hshr : (v &&& 63) <<< 2 >>> 6 ≤ 3 := by
      rw [Nat.shiftRight_eq_div_pow]; omega
    have hor : (w ||| ((v &&& 63) <<< 2 >>> 6)) % 256 = w ||| ((v &&& 63) <<< 2 >>> 6) :=
      Nat.mod_eq_of_lt (Nat.or_lt_two_pow (n := 8) (by omega) (by omega))
    have hrl := streamOutputChainRemoveLast_some
      ⟨inp, inext, ⟨cap, ob⟩, DmtxScheme.Edifact, wc, vc, DmtxStatus.Encoding, rsn, szi⟩
      w hwc hw
    simp [encodeValueEdifact, streamOutputChainAppend, hrange, hvm, hk, hrl, hor,
      (by omega : ob.length - 1 < cap), (by omega : ob.length - 1 + 1 < cap)]
    omega
  · intro w hk hwc hw hwlt
    have hne : ob ≠ [] := by intro h; rw [h] at hw; exact Option.noConfusion hw
    have hlen : 1 ≤ ob.length := List.length_pos.mpr hne
    have hshr : (v &&& 63) <<< 2 >>> 4 ≤ 15 := by
      rw [Nat.shiftRight_eq_div_pow]; omega
    have hor : (w ||| ((v &&& 63) <<< 2 >>> 4)) % 256 = w ||| ((v &&& 63) <<< 2 >>> 4) :=
      Nat.mod_eq_of_lt (Nat.or_lt_two_pow (n := 8) (by omega) (by omega))
    have hrl := streamOutputChainRemoveLast_some
      ⟨inp, inext, ⟨cap, ob⟩, DmtxScheme.Edifact, wc, vc, DmtxStatus.Encoding, rsn, szi⟩
      w hwc hw
    simp [encodeValueEdifact, streamOutputChainAppend, hrange, hvm, hk, hrl, hor,
      (by omega : ob.length - 1 < cap), (by omega : ob.length - 1 + 1 < cap)]
    omega
  · intro w hk hwc hw hwlt
    have hne : ob ≠ [] := by intro h; rw [h] at hw; exact Option.noConfusion hw
    have hlen : 1 ≤ ob.length := List.length_pos.mpr hne
    have hor : (w ||| (v &&& 63)) % 256 = w ||| (v &&& 63) :=
      Nat.mod_eq_of_lt (Nat.or_lt_two_pow (n := 8) (by omega) (by omega))
    have hrl := streamOutputChainRemoveLast_some
      ⟨inp, inext, ⟨cap, ob⟩, DmtxScheme.Edifact, wc, vc, DmtxStatus.Encoding, rsn, szi⟩
      w hwc hw
    simp [encodeValueEdifact, streamOutputChainAppend, hrange, hvm, hk, hrl, hor,
      (by omega : ob.length - 1 < cap)]
    omega

/-- Witness for C4 in phase 1: value count 1, last output byte 4,
value 66 (`ev = 8`): the last byte keeps its value (`8 >>> 6 = 0`) and
`8 <<< 2 = 32` is appended. -/
theorem encodeValueEdifact_spec_witness :
    (encodeValueEdifact
        { initStream [] 12 with
            currentScheme := DmtxScheme.Edifact,
            output := { capacity := 12, b := [4] },
            outputChainWordCount := 1,
            outputChainValueCount := 1 } 66).output.b =
      [4].dropLast ++ [4 ||| ((66 &&& 63) <<< 2 >>> 6), ((66 &&& 63) <<< 2 <<< 2) % 256] ∧
    (encodeValueEdifact
        { initStream [] 12 with
            currentScheme := DmtxScheme.Edifact,
            output := { capacity := 12, b := [4] },
            outputChainWordCount := 1,
            outputChainValueCount := 1 } 66).outputChainValueCount = 1 + 1 ∧
    (encodeValueEdifact
        { initStream [] 12 with
            currentScheme := DmtxScheme.Edifact,
            output := { capacity := 12, b := [4] },
            outputChainWordCount := 1,
            outputChainValueCount := 1 } 66).output.b.length = [4].length + 1 ∧
    (encodeValueEdifact
        { initStream [] 12 with
            currentScheme := DmtxScheme.Edifact,
            output := { capacity := 12, b := [4] },
            outputChainWordCount := 1,
            outputChainValueCount := 1 } 66).status = DmtxStatus.Encoding := by
  have h := (encodeValueEdifact_spec
    { initStream [] 12 with
        currentScheme := DmtxScheme.Edifact,
        output := { capacity := 12, b := [4] },
        outputChainWordCount := 1,
        outputChainValueCount := 1 } 66 rfl rfl (by decide) (by decide) (by decide)).2.1
  exact h 4 (by decide) (by decide) (by decide) (by decide)

/-- `Randomize255State2` always produces a byte. -/
theorem randomize255_lt (v p : Nat) : randomize255 v p < 256 := by
  simp only [randomize255]
  split <;> omega

/-- C5: `UpdateBase256ChainHeader` header contents.  With chain length
`L = outputChainValueCount` and `headerIndex` the first chain position:
a one-byte header (not perfect fit, `L ≤ 249`) stores
`randomize_255(L, headerIndex + 1)`; a two-byte header (not perfect fit)
stores `randomize_255(L/250 + 249, headerIndex + 1)` and
`randomize_255(L mod 250, headerIndex + 2)`; in the perfect-fit case the
header shrinks to the single byte `randomize_255(0, headerIndex + 1)`
and the output length equals the symbol's data-word count. -/
theorem updateBase256ChainHeader_spec (t : SymbolTable) (s : DmtxEncodeStream)
    (hstatus : s.status = DmtxStatus.Encoding)
    (hwclen : s.outputChainWordCount ≤ s.output.b.length) :
    ((s.outputChainWordCount : Int) - s.outputChainValueCount = 1 →
      s.outputChainValueCount ≤ 249 →
      updateBase256ChainHeader t s none =
        { s with
            output :=
              { capacity := s.output.capacity,
                b := s.output.b.set (s.output.b.length - s.outputChainWordCount)
                  (randomize255 s.outputChainValueCount
                    (s.output.b.length - s.outputChainWordCount + 1)) } }) ∧
    ((s.outputChainWordCount : Int) - s.outputChainValueCount = 2 →
      updateBase256ChainHeader t s none =
        { s with
            output :=
              { capacity := s.output.capacity,
                b := (s.output.b.set (s.output.b.length - s.outputChainWordCount)
                        (randomize255 (s.outputChainValueCount / 250 + 249)
                          (s.output.b.length - s.outputChainWordCount + 1))).set
                      (s.output.b.length - s.outputChainWordCount + 1)
                        (randomize255 (s.outputChainValueCount % 250)
                          (s.output.b.length - s.outputChainWordCount + 2)) } }) ∧
    (∀ idx, (s.outputChainWordCount : Int) - s.outputChainValueCount = 2 →
      (t.symbolDataWords idx : Int) = (s.output.b.length : Int) - 1 →
      updateBase256ChainHeader t s (some idx) =
        { s with
            output :=
              { capacity := s.output.capacity,
                b := (s.output.b.take (s.output.b.length - s.outputChainWordCount) ++
                      s.output.b.drop (s.output.b.length - s.outputChainWordCount + 1)).set
                    (s.output.b.length - s.outputChainWordCount)
                      (randomize255 0 (s.output.b.length - s.outputChainWordCount + 1)) },
            outputChainWordCount := s.outputChainWordCount - 1 } ∧
      (updateBase256ChainHeader t s (some idx)).output.b.length = t.symbolDataWords idx ∧
      (updateBase256ChainHeader t s (some idx)).status = DmtxStatus.Encoding) := by
  obtain ⟨inp, inext, ⟨cap, ob⟩, sch, wc, vc, st, rsn, szi⟩ := s
  dsimp only at hstatus hwclen ⊢
  subst hstatus
  refine ⟨?_, ?_, ?_⟩
  · intro hbc hL
    have hmod : randomize255 vc (ob.length - wc + 1) % 256 =
        randomize255 vc (ob.length - wc + 1) := Nat.mod_eq_of_lt (randomize255_lt _ _)
    have hset : (0:Int) ≤ (ob.length:Int) - wc ∧ ((ob.length:Int) - wc).toNat < ob.length := by
      omega
    have ht1 : ((ob.length:Int) - wc + 1).toNat = ob.length - wc + 1 := by omega
    have ht0 : ((ob.length:Int) - wc).toNat = ob.length - wc := by omega
    simp [updateBase256ChainHeader, base256WritePhase, streamOutputSet, hbc,
      eq_false (by omega : ¬ (249 < vc)), hset, ht0, ht1, hmod]
    intro h
    exact absurd (h (by omega)) (by omega)
  · intro hbc
    have hm1 : randomize255 (vc / 250 + 249) (ob.length - wc + 1) % 256 =
        randomize255 (vc / 250 + 249) (ob.length - wc + 1) :=
      Nat.mod_eq_of_lt (randomize255_lt _ _)
    have hm2 : randomize255 (vc % 250) (ob.length - wc + 2) % 256 =
        randomize255 (vc % 250) (ob.length - wc + 2) :=
      Nat.mod_eq_of_lt (randomize255_lt _ _)
    have ht0 : ((ob.length:Int) - wc).toNat = ob.length - wc := by omega
    have ht1 : ((ob.length:Int) - wc + 1).toNat = ob.length - wc + 1 := by omega
    have ht2 : ((ob.length:Int) - wc + 2).toNat = ob.length - wc + 2 := by omega
    have hi1 : ob.length - wc < ob.length := by omega
    have hi2 : ob.length - wc + 1 < ob.length := by omega
    simp [updateBase256ChainHeader, base256WritePhase, streamOutputSet, hbc,
      ht0, ht1, ht2, hm1, hm2, hi1, hi2, hwclen, (by omega : wc ≤ ob.length + 1),
      (by omega : (0:Int) ≤ (ob.length:Int) - wc + 1)]
  · intro idx hbc hfit
    have hm0 : randomize255 0 (ob.length - wc + 1) % 256 =
        randomize255 0 (ob.length - wc + 1) := Nat.mod_eq_of_lt (randomize255_lt _ _)
    have ht0 : ((ob.length:Int) - wc).toNat = ob.length - wc := by omega
    have ht1 : ((ob.length:Int) - wc + 1).toNat = ob.length - wc + 1 := by omega
    have hrem : 0 < wc ∧ wc ≤ ob.length := by omega
    have hlen1 : (ob.take (ob.length - wc) ++ ob.drop (ob.length - wc + 1)).length =
        ob.length - 1 := by
      simp only [List.length_append, List.length_take, List.length_drop]
      omega
    have hfitr : ((t.symbolDataWords idx : Int) =
        ((ob.take (ob.length - wc) ++ ob.drop (ob.length - wc + 1)).length : Int)) := by
      rw [hlen1]
      omega
    have hidx : ob.length - wc < (ob.take (ob.length - wc) ++
        ob.drop (ob.length - wc + 1)).length := by
      rw [hlen1]
      omega
    refine ⟨?_, ?_, ?_⟩ <;>
      simp [updateBase256ChainHeader, base256WritePhase, streamOutputSet,
        streamOutputChainRemoveFirst, hbc, hrem, hfitr, hidx, ht0, ht1, hm0, hlen1,
        hwclen, (by omega : 0 < wc), (by omega : wc ≤ ob.length + 1),
        (by omega : ob.length - wc < ob.length - 1)] <;>
      omega

/-- Witness for C5, one-byte header case: chain of 2 values after a
3-word chain over output `[0, 7, 9]` stores `randomize_255(2, 1) = 152`
at header index 0. -/
theorem updateBase256ChainHeader_spec_witness :
    updateBase256ChainHeader tinyTable
      { input := [], inputNext := 0, output := { capacity := 12, b := [0, 7, 9] },
        currentScheme := DmtxScheme.Base256, outputChainWordCount := 3,
        outputChainValueCount := 2, status := DmtxStatus.Encoding,
        reason := none, sizeIdx := none } none =
      { input := [], inputNext := 0, output := { capacity := 12, b := [152, 7, 9] },
        currentScheme := DmtxScheme.Base256, outputChainWordCount := 3,
        outputChainValueCount := 2, status := DmtxStatus.Encoding,
        reason := none, sizeIdx := none } := by
  have h := (updateBase256ChainHeader_spec tinyTable
    { input := [], inputNext := 0, output := { capacity := 12, b := [0, 7, 9] },
      currentScheme := DmtxScheme.Base256, outputChainWordCount := 3,
      outputChainValueCount := 2, status := DmtxStatus.Encoding,
      reason := none, sizeIdx := none } rfl (by decide)).1 (by decide) (by decide)
  rw [h]
  decide

/-- `StreamMarkFatal` never produces `Complete`. -/
theorem streamMarkFatal_not_complete {s : DmtxEncodeStream} {r : Nat}
    (h : (streamMarkFatal s r).status = DmtxStatus.Complete) :
    s.status = DmtxStatus.Complete := by
  unfold streamMarkFatal at h
  split at h
  · simp at h
  · exact h

/-- `StreamMarkInvalid` never produces `Complete`. -/
theorem streamMarkInvalid_not_complete {s : DmtxEncodeStream} {r : Nat}
    (h : (streamMarkInvalid s r).status = DmtxStatus.Complete) :
    s.status = DmtxStatus.Complete := by
  unfold streamMarkInvalid at h
  split at h
  · simp at h
  · exact h

/-- Appending never produces `Complete`. -/
theorem streamOutputChainAppend_not_complete {s : DmtxEncodeStream} {v : Nat}
    (h : (streamOutputChainAppend s v).status = DmtxStatus.Complete) :
    s.status = DmtxStatus.Complete := by
  unfold streamOutputChainAppend at h
  split at h
  · exact h
  · exact streamMarkFatal_not_complete h

/-- Overwriting never produces `Complete`. -/
theorem streamOutputSet_not_complete {s : DmtxEncodeStream} {i : Int} {v : Nat}
    (h : (streamOutputSet s i v).status = DmtxStatus.Complete) :
    s.status = DmtxStatus.Complete := by
  unfold streamOutputSet at h
  split at h
  · exact h
  · exact streamMarkFatal_not_complete h

/-- Inserting the chain-front byte never produces `Complete`. -/
theorem streamOutputChainInsertFirst_not_complete {s : DmtxEncodeStream}
    (h : (streamOutputChainInsertFirst s).status = DmtxStatus.Complete) :
    s.status = DmtxStatus.Complete := by
  unfold streamOutputChainInsertFirst at h
  split at h
  · exact h
  · exact streamMarkFatal_not_complete h

/-- Removing the chain-front byte never produces `Complete`. -/
theorem streamOutputChainRemoveFirst_not_complete {s : DmtxEncodeStream}
    (h : (streamOutputChainRemoveFirst s).status = DmtxStatus.Complete) :
    s.status = DmtxStatus.Complete := by
  unfold streamOutputChainRemoveFirst at h
  split at h
  · exact h
  · exact streamMarkFatal_not_complete h

/-- Removing the last chain byte never produces `Complete`. -/
theorem streamOutputChainRemoveLast_not_complete {s : DmtxEncodeStream}
    (h : (streamOutputChainRemoveLast s).2.status = DmtxStatus.Complete) :
    s.status = DmtxStatus.Complete := by
  unfold streamOutputChainRemoveLast at h
  split at h
  · split at h
    · exact h
    · exact streamMarkFatal_not_complete h
  · exact streamMarkFatal_not_complete h

/-- `EncodeValueAscii` never produces `Complete`. -/
theorem encodeValueAscii_not_complete {s : DmtxEncodeStream} {v : Nat}
    (h : (encodeValueAscii s v).status = DmtxStatus.Complete) :
    s.status = DmtxStatus.Complete := by
  simp only [encodeValueAscii] at h
  split at h
  · exact streamMarkFatal_not_complete h
  · split at h
    · exact streamOutputChainAppend_not_complete h
    · exact streamOutputChainAppend_not_complete h

/-- `EncodeUnlatchCTX` never produces `Complete`. -/
theorem encodeUnlatchCTX_not_complete {s : DmtxEncodeStream}
    (h : (encodeUnlatchCTX s).status = DmtxStatus.Complete) :
    s.status = DmtxStatus.Complete := by
  simp only [encodeUnlatchCTX] at h
  split at h
  · exact streamMarkFatal_not_complete h
  · split at h
    · exact streamMarkInvalid_not_complete h
    · split at h
      · exact streamOutputChainAppend_not_complete h
      · exact streamOutputChainAppend_not_complete h

/-- `EncodeValueEdifact` never produces `Complete`. -/
theorem encodeValueEdifact_not_complete {s : DmtxEncodeStream} {v : Nat}
    (h : (encodeValueEdifact s v).status = DmtxStatus.Complete) :
    s.status = DmtxStatus.Complete := by
  simp only [encodeValueEdifact] at h
  split at h
  · exact streamMarkFatal_not_complete h
  · split at h
    · exact streamMarkInvalid_not_complete h
    · split at h
      · split at h
        · exact streamOutputChainAppend_not_complete h
        · exact streamOutputChainAppend_not_complete h
      · split at h
        · split at h
          · exact streamOutputChainRemoveLast_not_complete h
          · split at h
            · exact streamOutputChainRemoveLast_not_complete
                (streamOutputChainAppend_not_complete h)
            · split at h
              · exact streamOutputChainRemoveLast_not_complete
                  (streamOutputChainAppend_not_complete
                    (streamOutputChainAppend_not_complete h))
              · exact streamOutputChainRemoveLast_not_complete
                  (streamOutputChainAppend_not_complete
                    (streamOutputChainAppend_not_complete h))
        · split at h
          · split at h
            · exact streamOutputChainRemoveLast_not_complete h
            · split at h
              · exact streamOutputChainRemoveLast_not_complete
                  (streamOutputChainAppend_not_complete h)
              · split at h
                · exact streamOutputChainRemoveLast_not_complete
                    (streamOutputChainAppend_not_complete
                      (streamOutputChainAppend_not_complete h))
                · exact streamOutputChainRemoveLast_not_complete
                    (streamOutputChainAppend_not_complete
                      (streamOutputChainAppend_not_complete h))
          · split at h
            · exact streamOutputChainRemoveLast_not_complete h
            · split at h
              · exact streamOutputChainRemoveLast_not_complete
                  (streamOutputChainAppend_not_complete h)
              · exact streamOutputChainRemoveLast_not_complete
                  (streamOutputChainAppend_not_complete h)

/-- `EncodeValuesCTX` never produces `Complete`. -/
theorem encodeValuesCTX_not_complete {s : DmtxEncodeStream} {vl : DmtxByteList}
    (h : (encodeValuesCTX s vl).status = DmtxStatus.Complete) :
    s.status = DmtxStatus.Complete := by
  simp only [encodeValuesCTX] at h
  split at h
  · exact streamMarkFatal_not_complete h
  · split at h
    · exact streamMarkFatal_not_complete h
    · split at h
      · exact streamOutputChainAppend_not_complete h
      · split at h
        · exact streamOutputChainAppend_not_complete
            (streamOutputChainAppend_not_complete h)
        · exact streamOutputChainAppend_not_complete
            (streamOutputChainAppend_not_complete h)

/-- The `base256WritePhase` helper never produces `Complete`. -/
theorem base256WritePhase_not_complete {t : SymbolTable} {s : DmtxEncodeStream}
    {hbc hi : Int} {L : Nat} {p : Option Nat}
    (h : (base256WritePhase t s hbc hi L p).status = DmtxStatus.Complete) :
    s.status = DmtxStatus.Complete := by
  simp only [base256WritePhase] at h
  split at h
  · split at h
    · split at h
      · exact streamMarkFatal_not_complete h
      · exact streamOutputSet_not_complete h
    · exact streamMarkFatal_not_complete h
  · split at h
    · exact streamOutputSet_not_complete h
    · split at h
      · split at h
        · exact streamOutputSet_not_complete h
        · exact streamOutputSet_not_complete (streamOutputSet_not_complete h)
      · exact streamMarkFatal_not_complete h

/-- `UpdateBase256ChainHeader` never produces `Complete`. -/
theorem updateBase256ChainHeader_not_complete {t : SymbolTable} {s : DmtxEncodeStream}
    {p : Option Nat}
    (h : (updateBase256ChainHeader t s p).status = DmtxStatus.Complete) :
    s.status = DmtxStatus.Complete := by
  simp only [updateBase256ChainHeader] at h
  split at h
  · split at h
    · exact streamOutputChainAppend_not_complete h
    · exact streamOutputChainAppend_not_complete (base256WritePhase_not_complete h)
  · split at h
    · split at h
      · exact streamOutputChainInsertFirst_not_complete h
      · exact streamOutputChainInsertFirst_not_complete (base256WritePhase_not_complete h)
    · split at h
      · split at h
        · exact streamOutputChainRemoveFirst_not_complete h
        · exact streamOutputChainRemoveFirst_not_complete (base256WritePhase_not_complete h)
      · exact base256WritePhase_not_complete h

/-- `EncodeChangeScheme` back to ASCII never produces `Complete`. -/
theorem encodeChangeScheme_ascii_not_complete {t : SymbolTable} {s : DmtxEncodeStream}
    {u : DmtxUnlatch}
    (h : (encodeChangeScheme t s DmtxScheme.Ascii u).status = DmtxStatus.Complete) :
    s.status = DmtxStatus.Complete := by
  simp only [encodeChangeScheme] at h
  split at h
  · exact h
  · cases u <;> cases hsch : s.currentScheme <;> simp only [hsch, reduceIte] at h <;>
      repeat' split at h
    all_goals
      first
        | exact h
        | exact encodeUnlatchCTX_not_complete h
        | exact encodeValueEdifact_not_complete h
        | (have h2 := updateBase256ChainHeader_not_complete h
           dsimp only at h2
           first
             | exact h2
             | exact encodeUnlatchCTX_not_complete h2
             | exact encodeValueEdifact_not_complete h2)

/-- Changing to ASCII either fails or lands in the ASCII scheme. -/
theorem encodeChangeScheme_ascii_cases (t : SymbolTable) (s : DmtxEncodeStream) (u : DmtxUnlatch) :
    (encodeChangeScheme t s DmtxScheme.Ascii u).status ≠ DmtxStatus.Encoding ∨
    (encodeChangeScheme t s DmtxScheme.Ascii u).currentScheme = DmtxScheme.Ascii := by
  by_cases hsch : s.currentScheme = DmtxScheme.Ascii
  · right
    simp only [encodeChangeScheme, if_pos hsch]
    exact hsch
  · have hif2 : (DmtxScheme.Ascii = DmtxScheme.Base256) = False := by simp
    cases u
    · have hifu : (DmtxUnlatch.Explicit = DmtxUnlatch.Explicit) = True := by simp
      simp only [encodeChangeScheme, if_neg hsch, hif2, hifu, ite_false, ite_true]
      split
      · rename_i hne
        exact Or.inl hne
      · split <;> exact Or.inr rfl
    · have hifu : (DmtxUnlatch.Implicit = DmtxUnlatch.Explicit) = False := by simp
      simp only [encodeChangeScheme, if_neg hsch, hif2, hifu, ite_false, ite_true]
      split
      · rename_i hne
        exact Or.inl hne
      · split <;> exact Or.inr rfl

/-- Changing to ASCII with an implicit unlatch just resets the scheme
and the chain counters. -/
theorem encodeChangeScheme_ascii_implicit (t : SymbolTable) (s : DmtxEncodeStream)
    (hstatus : s.status = DmtxStatus.Encoding) :
    encodeChangeScheme t s DmtxScheme.Ascii DmtxUnlatch.Implicit =
      if s.currentScheme = DmtxScheme.Ascii then s
      else { s with currentScheme := DmtxScheme.Ascii, outputChainWordCount := 0,
                    outputChainValueCount := 0 } := by
  by_cases hsch : s.currentScheme = DmtxScheme.Ascii
  · simp [encodeChangeScheme, hsch]
  · rw [if_neg hsch]
    cases hc : s.currentScheme
    · exact absurd hc hsch
    all_goals simp [encodeChangeScheme, hc, hsch, hstatus]

/-- A successful append leaves status `Encoding` only if it started
there, and then grows the output by exactly one byte. -/
theorem streamOutputChainAppend_encoding {s : DmtxEncodeStream} {v : Nat}
    (h : (streamOutputChainAppend s v).status = DmtxStatus.Encoding) :
    s.status = DmtxStatus.Encoding ∧
    (streamOutputChainAppend s v).output.b.length = s.output.b.length + 1 ∧
    (streamOutputChainAppend s v).currentScheme = s.currentScheme := by
  unfold streamOutputChainAppend at h ⊢
  split at h
  · rename_i hc
    rw [if_pos hc]
    exact ⟨h, by simp, rfl⟩
  · rename_i hc
    rw [if_neg hc]
    unfold streamMarkFatal at h ⊢
    split at h
    · simp at h
    · rename_i hs
      split
      · rename_i hs2
        exact absurd hs2 hs
      · exact absurd h hs

/-- A successful `StreamOutputSet` preserves status and length. -/
theorem streamOutputSet_encoding {s : DmtxEncodeStream} {i : Int} {v : Nat}
    (h : (streamOutputSet s i v).status = DmtxStatus.Encoding) :
    s.status = DmtxStatus.Encoding ∧
    (streamOutputSet s i v).output.b.length = s.output.b.length := by
  unfold streamOutputSet at h ⊢
  split at h
  · rename_i hc
    rw [if_pos hc]
    exact ⟨h, by simp⟩
  · rename_i hc
    rw [if_neg hc]
    unfold streamMarkFatal at h ⊢
    split at h
    · simp at h
    · rename_i hs
      split
      · rename_i hs2
        exact absurd hs2 hs
      · exact absurd h hs

/-- `StreamMarkFatal` never leaves the stream in `Encoding`. -/
theorem streamMarkFatal_not_encoding {s : DmtxEncodeStream} {r : Nat} :
    (streamMarkFatal s r).status ≠ DmtxStatus.Encoding := by
  unfold streamMarkFatal
  split
  · simp
  · rename_i hs
    simpa using hs

/-- `StreamMarkInvalid` never leaves the stream in `Encoding`. -/
theorem streamMarkInvalid_not_encoding {s : DmtxEncodeStream} {r : Nat} :
    (streamMarkInvalid s r).status ≠ DmtxStatus.Encoding := by
  unfold streamMarkInvalid
  split
  · simp
  · rename_i hs
    simpa using hs

/-- A successful pad loop appends exactly its fuel in bytes. -/
theorem padLoop_encoding (n : Nat) : ∀ s : DmtxEncodeStream,
    (padLoop n s).status = DmtxStatus.Encoding →
    s.status = DmtxStatus.Encoding ∧
    (padLoop n s).output.b.length = s.output.b.length + n ∧
    (padLoop n s).currentScheme = s.currentScheme := by
  induction n with
  | zero =>
    intro s h
    exact ⟨h, rfl, rfl⟩
  | succ m ih =>
    intro s h
    simp only [padLoop] at h ⊢
    by_cases hs1 : (streamOutputChainAppend s
        (randomize253 DmtxValueAsciiPad (s.output.b.length + 1))).status = DmtxStatus.Encoding
    · have hc := eq_false (not_not_intro hs1)
      simp only [hc, ite_false] at h ⊢
      obtain ⟨ha, hlen, hsch⟩ := ih _ h
      obtain ⟨ha2, hlen2, hsch2⟩ := streamOutputChainAppend_encoding hs1
      refine ⟨ha2, ?_, by rw [hsch, hsch2]⟩
      rw [hlen, hlen2]
      omega
    · have hc := eq_true hs1
      simp only [hc, ite_true] at h
      exact absurd h hs1

/-- The pad loop never produces `Complete`. -/
theorem padLoop_not_complete (n : Nat) : ∀ s : DmtxEncodeStream,
    (padLoop n s).status = DmtxStatus.Complete →
    s.status = DmtxStatus.Complete := by
  induction n with
  | zero =>
    intro s h
    exact h
  | succ m ih =>
    intro s h
    simp only [padLoop] at h
    split at h
    · exact streamOutputChainAppend_not_complete h
    · exact streamOutputChainAppend_not_complete (ih _ h)

/-- `PadRemainingInAscii` never produces `Complete`. -/
theorem padRemainingInAscii_not_complete {t : SymbolTable} {s : DmtxEncodeStream}
    {sizeIdx : Option Nat}
    (h : (padRemainingInAscii t s sizeIdx).status = DmtxStatus.Complete) :
    s.status = DmtxStatus.Complete := by
  simp only [padRemainingInAscii] at h
  split at h
  · exact streamMarkFatal_not_complete h
  · split at h
    · exact streamMarkInvalid_not_complete h
    · split at h
      · split at h
        · exact streamOutputChainAppend_not_complete h
        · exact streamOutputChainAppend_not_complete (padLoop_not_complete _ _ h)
      · exact h

/-- A pad that ends still `Encoding` filled the output to exactly the
symbol's data-word count. -/
theorem padRemainingInAscii_encoding {t : SymbolTable} {s : DmtxEncodeStream} {idx : Nat}
    (h : (padRemainingInAscii t s (some idx)).status = DmtxStatus.Encoding)
    (hle : s.output.b.length ≤ t.symbolDataWords idx) :
    s.status = DmtxStatus.Encoding ∧
    (padRemainingInAscii t s (some idx)).output.b.length = t.symbolDataWords idx := by
  by_cases hsch : s.currentScheme ≠ DmtxScheme.Ascii
  · simp only [padRemainingInAscii, eq_true hsch, ite_true] at h
    exact absurd h streamMarkFatal_not_encoding
  · simp only [padRemainingInAscii, eq_false hsch, ite_false] at h ⊢
    by_cases hrem : 0 < getRemainingSymbolCapacity t (s.output.b.length : Int) idx
    · simp only [eq_true hrem, ite_true] at h ⊢
      by_cases hs1 : (streamOutputChainAppend s DmtxValueAsciiPad).status = DmtxStatus.Encoding
      · have hc := eq_false (not_not_intro hs1)
        simp only [hc, ite_false] at h ⊢
        obtain ⟨ha, hlen, hsch2⟩ := padLoop_encoding _ _ h
        obtain ⟨ha2, hlen2, hsch3⟩ := streamOutputChainAppend_encoding hs1
        refine ⟨ha2, ?_⟩
        rw [hlen, hlen2]
        simp only [getRemainingSymbolCapacity] at hrem ⊢
        omega
      · have hc := eq_true hs1
        simp only [hc, ite_true] at h
        exact absurd h hs1
    · simp only [eq_false hrem, ite_false] at h ⊢
      refine ⟨h, ?_⟩
      simp only [getRemainingSymbolCapacity] at hrem
      omega

/-- A successful `EncodeValueAscii` appends one byte, counts one value
and keeps the scheme. -/
theorem encodeValueAscii_encoding {s : DmtxEncodeStream} {v : Nat}
    (h : (encodeValueAscii s v).status = DmtxStatus.Encoding) :
    s.status = DmtxStatus.Encoding ∧
    (encodeValueAscii s v).output.b.length = s.output.b.length + 1 ∧
    (encodeValueAscii s v).currentScheme = s.currentScheme := by
  by_cases hsch : s.currentScheme ≠ DmtxScheme.Ascii
  · simp only [encodeValueAscii, eq_true hsch, ite_true] at h
    exact absurd h streamMarkFatal_not_encoding
  · simp only [encodeValueAscii, eq_false hsch, ite_false] at h ⊢
    by_cases hs1 : (streamOutputChainAppend s v).status = DmtxStatus.Encoding
    · have hc := eq_false (not_not_intro hs1)
      simp only [hc, ite_false] at h ⊢
      obtain ⟨ha2, hlen2, hsch3⟩ := streamOutputChainAppend_encoding hs1
      exact ⟨ha2, hlen2, hsch3⟩
    · have hc := eq_true hs1
      simp only [hc, ite_true] at h
      exact absurd h hs1

/-- A successful run of the probe-append loop grows the output by the
number of appended values and keeps the scheme. -/
theorem appendValuesAscii_encoding : ∀ (l : List Nat) (s : DmtxEncodeStream),
    (appendValuesAscii s l).status = DmtxStatus.Encoding →
    s.status = DmtxStatus.Encoding ∧
    (appendValuesAscii s l).output.b.length = s.output.b.length + l.length ∧
    (appendValuesAscii s l).currentScheme = s.currentScheme := by
  intro l
  induction l with
  | nil =>
    intro s h
    exact ⟨h, rfl, rfl⟩
  | cons v rest ih =>
    intro s h
    simp only [appendValuesAscii] at h ⊢
    by_cases hs1 : (encodeValueAscii s v).status = DmtxStatus.Encoding
    · have hc := eq_false (not_not_intro hs1)
      simp only [hc, ite_false] at h ⊢
      obtain ⟨ha, hlen, hsch⟩ := ih _ h
      obtain ⟨ha2, hlen2, hsch2⟩ := encodeValueAscii_encoding hs1
      refine ⟨ha2, ?_, by rw [hsch, hsch2]⟩
      rw [hlen, hlen2]
      simp only [List.length_cons]
      omega
    · have hc := eq_true hs1
      simp only [hc, ite_true] at h
      exact absurd h hs1

/-- The probe-append loop never produces `Complete`. -/
theorem appendValuesAscii_not_complete : ∀ (l : List Nat) (s : DmtxEncodeStream),
    (appendValuesAscii s l).status = DmtxStatus.Complete →
    s.status = DmtxStatus.Complete := by
  intro l
  induction l with
  | nil =>
    intro s h
    exact h
  | cons v rest ih =>
    intro s h
    simp only [appendValuesAscii] at h
    split at h
    · exact encodeValueAscii_not_complete h
    · exact encodeValueAscii_not_complete (ih _ h)

/-- A successful `EncodeValuesCTX` appends exactly two codewords. -/
theorem encodeValuesCTX_encoding {s : DmtxEncodeStream} {vl : DmtxByteList}
    (h : (encodeValuesCTX s vl).status = DmtxStatus.Encoding) :
    s.status = DmtxStatus.Encoding ∧
    (encodeValuesCTX s vl).output.b.length = s.output.b.length + 2 := by
  by_cases hsch : ¬ isCTXScheme s.currentScheme = true
  · simp only [encodeValuesCTX, eq_true hsch, ite_true] at h
    exact absurd h streamMarkFatal_not_encoding
  · simp only [encodeValuesCTX, eq_false hsch, ite_false] at h ⊢
    by_cases hlen3 : vl.b.length ≠ 3
    · simp only [eq_true hlen3, ite_true] at h
      exact absurd h streamMarkFatal_not_encoding
    · simp only [eq_false hlen3, ite_false] at h ⊢
      by_cases hs1 : (streamOutputChainAppend s
          ((1600 * vl.b.getD 0 0 + 40 * vl.b.getD 1 0 + vl.b.getD 2 0 + 1) / 256)).status =
            DmtxStatus.Encoding
      · have hc1 := eq_false (not_not_intro hs1)
        simp only [hc1, ite_false] at h ⊢
        by_cases hs2 : (streamOutputChainAppend (streamOutputChainAppend s
            ((1600 * vl.b.getD 0 0 + 40 * vl.b.getD 1 0 + vl.b.getD 2 0 + 1) / 256))
            ((1600 * vl.b.getD 0 0 + 40 * vl.b.getD 1 0 + vl.b.getD 2 0 + 1) % 256)).status =
              DmtxStatus.Encoding
        · have hc2 := eq_false (not_not_intro hs2)
          simp only [hc2, ite_false] at h ⊢
          obtain ⟨ha1, hlen1, hsch1⟩ := streamOutputChainAppend_encoding hs1
          obtain ⟨ha2, hlen2, hsch2⟩ := streamOutputChainAppend_encoding hs2
          refine ⟨ha1, ?_⟩
          rw [hlen2, hlen1]
        · have hc2 := eq_true hs2
          simp only [hc2, ite_true] at h
          exact absurd h hs2
      · have hc1 := eq_true hs1
        simp only [hc1, ite_true] at h
        exact absurd h hs1

/-- A write phase for a perfect-fit header that stays `Encoding` leaves
the output at exactly the symbol's data-word count. -/
theorem base256WritePhase_perfect_encoding {t : SymbolTable} {s : DmtxEncodeStream}
    {hbc hi : Int} {L : Nat} {idx : Nat}
    (h : (base256WritePhase t s hbc hi L (some idx)).status = DmtxStatus.Encoding) :
    (base256WritePhase t s hbc hi L (some idx)).output.b.length = t.symbolDataWords idx := by
  simp only [base256WritePhase] at h ⊢
  by_cases h1 : hbc = 1
  · simp only [eq_true h1, ite_true] at h ⊢
    by_cases h2 : (t.symbolDataWords idx : Int) ≠ (s.output.b.length : Int)
    · simp only [eq_true h2, ite_true] at h
      exact absurd h streamMarkFatal_not_encoding
    · simp only [eq_false h2, ite_false] at h ⊢
      obtain ⟨hst, hlen⟩ := streamOutputSet_encoding h
      rw [hlen]
      rw [not_not] at h2
      omega
  · simp only [eq_false h1, ite_false] at h
    exact absurd h streamMarkFatal_not_encoding

/-- An `UpdateBase256ChainHeader` call for a perfect fit that stays
`Encoding` leaves the output at exactly the symbol's data-word count. -/
theorem updateBase256ChainHeader_perfect_encoding {t : SymbolTable} {s : DmtxEncodeStream}
    {idx : Nat}
    (h : (updateBase256ChainHeader t s (some idx)).status = DmtxStatus.Encoding) :
    (updateBase256ChainHeader t s (some idx)).output.b.length = t.symbolDataWords idx := by
  simp only [updateBase256ChainHeader, Option.isSome_some] at h ⊢
  by_cases c1 : (s.outputChainWordCount : Int) - s.outputChainValueCount = 0 ∧
      s.outputChainWordCount = 0
  · simp only [eq_true c1, ite_true] at h ⊢
    by_cases hs1 : (streamOutputChainAppend s 0).status = DmtxStatus.Encoding
    · have hc := eq_false (not_not_intro hs1)
      simp only [hc, ite_false] at h ⊢
      exact base256WritePhase_perfect_encoding h
    · have hc := eq_true hs1
      simp only [hc, ite_true] at h
      exact absurd h hs1
  · simp only [eq_false c1, ite_false] at h ⊢
    by_cases c2 : (s.outputChainWordCount : Int) - s.outputChainValueCount = 1 ∧
        249 < s.outputChainValueCount
    · simp only [eq_true c2, ite_true] at h ⊢
      by_cases hs1 : (streamOutputChainInsertFirst s).status = DmtxStatus.Encoding
      · have hc := eq_false (not_not_intro hs1)
        simp only [hc, ite_false] at h ⊢
        exact base256WritePhase_perfect_encoding h
      · have hc := eq_true hs1
        simp only [hc, ite_true] at h
        exact absurd h hs1
    · simp only [eq_false c2, ite_false] at h ⊢
      by_cases c3 : (s.outputChainWordCount : Int) - s.outputChainValueCount = 2
      · simp only [eq_true c3, true_and, ite_true] at h ⊢
        by_cases hs1 : (streamOutputChainRemoveFirst s).status = DmtxStatus.Encoding
        · have hc := eq_false (not_not_intro hs1)
          simp only [hc, ite_false] at h ⊢
          exact base256WritePhase_perfect_encoding h
        · have hc := eq_true hs1
          simp only [hc, ite_true] at h
          exact absurd h hs1
      · simp only [eq_false c3, false_and, ite_false] at h ⊢
        exact base256WritePhase_perfect_encoding h

/-- `StreamMarkComplete` on an encoding stream. -/
theorem streamMarkComplete_of_encoding {s : DmtxEncodeStream} {idx : Nat}
    (h : s.status = DmtxStatus.Encoding) :
    streamMarkComplete s idx = { s with status := DmtxStatus.Complete, sizeIdx := some idx } := by
  simp [streamMarkComplete, h]

/-- `StreamMarkComplete` on a non-encoding stream does nothing. -/
theorem streamMarkComplete_of_not_encoding {s : DmtxEncodeStream} {idx : Nat}
    (h : ¬ s.status = DmtxStatus.Encoding) :
    streamMarkComplete s idx = s := by
  simp [streamMarkComplete, h]

/-- Two incompatible status facts. -/
theorem status_clash {s : DmtxEncodeStream}
    (h1 : s.status = DmtxStatus.Encoding) (h2 : s.status = DmtxStatus.Complete) : False := by
  rw [h1] at h2
  exact DmtxStatus.noConfusion h2

/-- C2, ASCII completion path: a `Complete` result of
`CompleteIfDoneAscii` has its output padded to exactly the data-word
count of the recorded size. -/
theorem completeIfDoneAscii_length {t : SymbolTable} (hv : t.Valid) {hint : Option Nat}
    {s : DmtxEncodeStream} (hst : s.status = DmtxStatus.Encoding)
    (h : (completeIfDoneAscii t hint s).status = DmtxStatus.Complete) :
    ∃ idx, (completeIfDoneAscii t hint s).sizeIdx = some idx ∧
      (completeIfDoneAscii t hint s).output.b.length = t.symbolDataWords idx := by
  simp only [completeIfDoneAscii] at h ⊢
  by_cases hnx : streamInputHasNext s = true
  · simp only [eq_true hnx, ite_true] at h
    exact (status_clash hst h).elim
  · simp only [eq_false hnx, ite_false] at h ⊢
    cases hf : t.findSymbolSize (s.output.b.length : Int) hint with
    | none =>
      simp only [hf] at h
      exact (status_clash hst (streamMarkInvalid_not_complete h)).elim
    | some idx =>
      simp only [hf] at h ⊢
      by_cases hs1 : (padRemainingInAscii t s (some idx)).status = DmtxStatus.Encoding
      · have hc := eq_false (not_not_intro hs1)
        simp only [hc, ite_false] at h ⊢
        rw [streamMarkComplete_of_encoding hs1]
        have hle : s.output.b.length ≤ t.symbolDataWords idx := by
          have := hv _ hint idx hf
          exact_mod_cast this
        obtain ⟨hs0, hlen⟩ := padRemainingInAscii_encoding hs1 hle
        exact ⟨idx, rfl, hlen⟩
      · have hc := eq_true hs1
        simp only [hc, ite_true] at h
        exact (status_clash hst (padRemainingInAscii_not_complete h)).elim

/-- C2, CTX perfect-fit completion path. -/
theorem completeIfDoneCTX_length {t : SymbolTable} (hv : t.Valid) {hint : Option Nat}
    {s : DmtxEncodeStream} (hst : s.status = DmtxStatus.Encoding)
    (h : (completeIfDoneCTX t hint s).status = DmtxStatus.Complete) :
    ∃ idx, (completeIfDoneCTX t hint s).sizeIdx = some idx ∧
      (completeIfDoneCTX t hint s).output.b.length = t.symbolDataWords idx := by
  simp only [completeIfDoneCTX] at h ⊢
  cases hf : t.findSymbolSize (s.output.b.length : Int) hint with
  | none =>
    simp only [hf] at h
    exact (status_clash hst (streamMarkInvalid_not_complete h)).elim
  | some idx =>
    simp only [hf] at h ⊢
    by_cases hnx : ¬ streamInputHasNext s = true
    · simp only [eq_true hnx, ite_true] at h ⊢
      by_cases hrem : getRemainingSymbolCapacity t (s.output.b.length : Int) idx = 0
      · simp only [eq_true hrem, ite_true] at h ⊢
        rw [streamMarkComplete_of_encoding hst]
        refine ⟨idx, rfl, ?_⟩
        dsimp only
        simp only [getRemainingSymbolCapacity] at hrem
        omega
      · simp only [eq_false hrem, ite_false] at h
        exact (status_clash hst (encodeChangeScheme_ascii_not_complete h)).elim
    · simp only [eq_false hnx, ite_false] at h
      exact (status_clash hst h).elim

/-- C2, CTX partial (two leftover values) completion path. -/
theorem completeIfDonePartialCTX_length {t : SymbolTable} (hv : t.Valid)
    {s : DmtxEncodeStream} {vl : DmtxByteList} {hint : Option Nat}
    (hst : s.status = DmtxStatus.Encoding)
    (h : (completeIfDonePartialCTX t s vl hint).status = DmtxStatus.Complete) :
    ∃ idx, (completeIfDonePartialCTX t s vl hint).sizeIdx = some idx ∧
      (completeIfDonePartialCTX t s vl hint).output.b.length = t.symbolDataWords idx := by
  simp only [completeIfDonePartialCTX] at h ⊢
  by_cases hg1 : ¬ isCTXScheme s.currentScheme = true
  · simp only [eq_true hg1, ite_true] at h
    exact (status_clash hst (streamMarkFatal_not_complete h)).elim
  · simp only [eq_false hg1, ite_false] at h ⊢
    by_cases hg2 : ¬ (vl.b.length = 1 ∨ vl.b.length = 2)
    · simp only [eq_true hg2, ite_true] at h
      exact (status_clash hst (streamMarkFatal_not_complete h)).elim
    · simp only [eq_false hg2, ite_false] at h ⊢
      cases hf : t.findSymbolSize (s.output.b.length : Int) hint with
      | none =>
        simp only [hf] at h
        exact (status_clash hst (streamMarkInvalid_not_complete h)).elim
      | some idx =>
        simp only [hf] at h ⊢
        by_cases hcond : vl.b.length = 2 ∧
            getRemainingSymbolCapacity t (s.output.b.length : Int) idx = 2
        · simp only [eq_true hcond, ite_true] at h ⊢
          by_cases hs1 : (encodeValuesCTX s
              (dmtxByteListPush vl DmtxValueCTXShift1).1).status = DmtxStatus.Encoding
          · have hc := eq_false (not_not_intro hs1)
            simp only [hc, ite_false] at h ⊢
            rw [streamMarkComplete_of_encoding hs1]
            refine ⟨idx, rfl, ?_⟩
            obtain ⟨hs0, hlen⟩ := encodeValuesCTX_encoding hs1
            rw [hlen]
            have hrem := hcond.2
            simp only [getRemainingSymbolCapacity] at hrem
            omega
          · have hc := eq_true hs1
            simp only [hc, ite_true] at h
            exact (status_clash hst (encodeValuesCTX_not_complete h)).elim
        · simp only [eq_false hcond, ite_false] at h
          exact (status_clash hst h).elim

/-- The implicit-unlatch tail of `CompleteIfDoneEdifact`: appending the
probed ASCII codewords, registering input progress, padding and marking
complete yields a full symbol. -/
theorem edifact_tail_length {t : SymbolTable} (s1 : DmtxEncodeStream) (l : List Nat)
    (sizeIdx : Nat)
    (hs1 : s1.status = DmtxStatus.Encoding)
    (hle : s1.output.b.length + l.length ≤ t.symbolDataWords sizeIdx) :
    ∀ r : DmtxEncodeStream,
      r = (if (appendValuesAscii s1 l).status ≠ DmtxStatus.Encoding then appendValuesAscii s1 l
           else
             if (padRemainingInAscii t
                 { appendValuesAscii s1 l with
                     inputNext := (appendValuesAscii s1 l).input.length }
                 (some sizeIdx)).status ≠ DmtxStatus.Encoding then
               padRemainingInAscii t
                 { appendValuesAscii s1 l with
                     inputNext := (appendValuesAscii s1 l).input.length }
                 (some sizeIdx)
             else
               streamMarkComplete
                 (padRemainingInAscii t
                   { appendValuesAscii s1 l with
                       inputNext := (appendValuesAscii s1 l).input.length }
                   (some sizeIdx))
                 sizeIdx) →
      r.status = DmtxStatus.Complete →
      ∃ idx, r.sizeIdx = some idx ∧ r.output.b.length = t.symbolDataWords idx := by
  intro r hr h
  subst hr
  by_cases hs2 : (appendValuesAscii s1 l).status = DmtxStatus.Encoding
  · have hc2 := eq_false (not_not_intro hs2)
    simp only [hc2, ite_false] at h ⊢
    have hs3 : ({ appendValuesAscii s1 l with
        inputNext := (appendValuesAscii s1 l).input.length } :
          DmtxEncodeStream).status = DmtxStatus.Encoding := hs2
    by_cases hs4 : (padRemainingInAscii t
        { appendValuesAscii s1 l with
            inputNext := (appendValuesAscii s1 l).input.length }
        (some sizeIdx)).status = DmtxStatus.Encoding
    · have hc4 := eq_false (not_not_intro hs4)
      simp only [hc4, ite_false] at h ⊢
      rw [streamMarkComplete_of_encoding hs4]
      refine ⟨sizeIdx, rfl, ?_⟩
      dsimp only
      obtain ⟨hsa, hlen2, hscha⟩ := appendValuesAscii_encoding l s1 hs2
      have hle3 : ({ appendValuesAscii s1 l with
          inputNext := (appendValuesAscii s1 l).input.length } :
            DmtxEncodeStream).output.b.length ≤ t.symbolDataWords sizeIdx := by
        dsimp only
        omega
      obtain ⟨hs0, hlen⟩ := padRemainingInAscii_encoding hs4 hle3
      exact hlen
    · have hc4 := eq_true hs4
      simp only [hc4, ite_true] at h
      have h3 := padRemainingInAscii_not_complete h
      exact (status_clash hs3 h3).elim
  · have hc2 := eq_true hs2
    simp only [hc2, ite_true] at h
    exact (status_clash hs1 (appendValuesAscii_not_complete l s1 h)).elim

/-- C2, EDIFACT completion paths: explicit unlatch-and-pad, perfect
fit, and the implicit-unlatch ASCII finish all fill the symbol. -/
theorem completeIfDoneEdifact_length {t : SymbolTable} (hv : t.Valid) {hint : Option Nat}
    {s : DmtxEncodeStream} (hst : s.status = DmtxStatus.Encoding)
    (h : (completeIfDoneEdifact t hint s).status = DmtxStatus.Complete) :
    ∃ idx, (completeIfDoneEdifact t hint s).sizeIdx = some idx ∧
      (completeIfDoneEdifact t hint s).output.b.length = t.symbolDataWords idx := by
  simp only [completeIfDoneEdifact] at h ⊢
  cases hf : t.findSymbolSize (s.output.b.length : Int) hint with
  | none =>
    simp only [hf] at h
    exact (status_clash hst (streamMarkInvalid_not_complete h)).elim
  | some sizeIdx =>
    simp only [hf] at h ⊢
    by_cases hnx : ¬ streamInputHasNext s = true
    · simp only [eq_true hnx, ite_true] at h ⊢
      by_cases hcb : ¬ s.outputChainValueCount % 4 = 0 ∨
          0 < getRemainingSymbolCapacity t (s.output.b.length : Int) sizeIdx
      · simp only [eq_true hcb, ite_true] at h ⊢
        by_cases hs1 : (encodeChangeScheme t s DmtxScheme.Ascii DmtxUnlatch.Explicit).status =
            DmtxStatus.Encoding
        · have hc := eq_false (not_not_intro hs1)
          simp only [hc, ite_false] at h ⊢
          cases hf2 : t.findSymbolSize
              (((encodeChangeScheme t s DmtxScheme.Ascii
                  DmtxUnlatch.Explicit).output.b.length : Nat) : Int) hint with
          | none =>
            simp only [hf2] at h
            exact (status_clash hs1 (streamMarkInvalid_not_complete h)).elim
          | some idx2 =>
            simp only [hf2] at h ⊢
            by_cases hs2 : (padRemainingInAscii t
                (encodeChangeScheme t s DmtxScheme.Ascii DmtxUnlatch.Explicit)
                (some idx2)).status = DmtxStatus.Encoding
            · have hc2 := eq_false (not_not_intro hs2)
              simp only [hc2, ite_false] at h ⊢
              rw [streamMarkComplete_of_encoding hs2]
              have hle : (encodeChangeScheme t s DmtxScheme.Ascii
                  DmtxUnlatch.Explicit).output.b.length ≤ t.symbolDataWords idx2 := by
                have := hv _ hint idx2 hf2
                exact_mod_cast this
              obtain ⟨hs0, hlen⟩ := padRemainingInAscii_encoding hs2 hle
              exact ⟨idx2, rfl, hlen⟩
            · have hc2 := eq_true hs2
              simp only [hc2, ite_true] at h
              exact (status_clash hs1 (padRemainingInAscii_not_complete h)).elim
        · have hc := eq_true hs1
          simp only [hc, ite_true] at h
          exact (status_clash hst (encodeChangeScheme_ascii_not_complete h)).elim
      · simp only [eq_false hcb, ite_false] at h ⊢
        rw [streamMarkComplete_of_encoding hst]
        refine ⟨sizeIdx, rfl, ?_⟩
        dsimp only
        push_neg at hcb
        have hrem := hcb.2
        simp only [getRemainingSymbolCapacity] at hrem
        have hle := hv _ hint sizeIdx hf
        omega
    · simp only [eq_false hnx, ite_false] at h ⊢
      by_cases hpf : (encodeTmpRemainingInAscii s 3).2.2 = false ∨
          getRemainingSymbolCapacity t (s.output.b.length : Int) sizeIdx <
            ((encodeTmpRemainingInAscii s 3).2.1.b.length : Int)
      · simp only [eq_true hpf, ite_true] at h
        exact (status_clash hst h).elim
      · simp only [eq_false hpf, ite_false] at h ⊢
        by_cases hcl : s.outputChainValueCount % 4 = 0 ∧
            ((encodeTmpRemainingInAscii s 3).2.1.b.length = 1 ∨
             (encodeTmpRemainingInAscii s 3).2.1.b.length = 2)
        · simp only [eq_true hcl, ite_true] at h ⊢
          by_cases hs1 : (encodeChangeScheme t s DmtxScheme.Ascii DmtxUnlatch.Implicit).status =
              DmtxStatus.Encoding
          · have hc := eq_false (not_not_intro hs1)
            simp only [hc, ite_false] at h ⊢
            have hlen1 : (encodeChangeScheme t s DmtxScheme.Ascii
                DmtxUnlatch.Implicit).output.b.length = s.output.b.length := by
              rw [encodeChangeScheme_ascii_implicit t s hst]
              split
              · rfl
              · rfl
            have hle : (encodeChangeScheme t s DmtxScheme.Ascii
                DmtxUnlatch.Implicit).output.b.length +
                  ((encodeTmpRemainingInAscii s 3).2.1.b.length : Nat) ≤
                t.symbolDataWords sizeIdx := by
              rw [hlen1]
              push_neg at hpf
              have hk := hpf.2
              simp only [getRemainingSymbolCapacity] at hk
              omega
            exact edifact_tail_length _ _ _ hs1 hle _ rfl h
          · have hc := eq_true hs1
            simp only [hc, ite_true] at h
            have hs1e : (encodeChangeScheme t s DmtxScheme.Ascii
                DmtxUnlatch.Implicit).status = DmtxStatus.Encoding := by
              rw [encodeChangeScheme_ascii_implicit t s hst]
              split
              · exact hst
              · exact hst
            exact absurd hs1e hs1
        · simp only [eq_false hcl, ite_false] at h
          exact (status_clash hst h).elim

/-- The normal (non-perfect-fit) Base256 completion tail: implicit
unlatch to ASCII, pad, and mark complete fill the symbol. -/
theorem base256_normal_length {t : SymbolTable} (hv : t.Valid) {hint : Option Nat}
    {s : DmtxEncodeStream} {sizeIdx : Nat}
    (hst : s.status = DmtxStatus.Encoding)
    (hf : t.findSymbolSize (s.output.b.length : Int) hint = some sizeIdx) :
    ∀ r : DmtxEncodeStream,
      r = streamMarkComplete
          (padRemainingInAscii t
            (encodeChangeScheme t s DmtxScheme.Ascii DmtxUnlatch.Implicit) (some sizeIdx))
          sizeIdx →
      r.status = DmtxStatus.Complete →
      ∃ idx, r.sizeIdx = some idx ∧ r.output.b.length = t.symbolDataWords idx := by
  intro r hr h
  subst hr
  have hs1 : (encodeChangeScheme t s DmtxScheme.Ascii DmtxUnlatch.Implicit).status =
      DmtxStatus.Encoding := by
    rw [encodeChangeScheme_ascii_implicit t s hst]
    split
    · exact hst
    · exact hst
  have hlen1 : (encodeChangeScheme t s DmtxScheme.Ascii
      DmtxUnlatch.Implicit).output.b.length = s.output.b.length := by
    rw [encodeChangeScheme_ascii_implicit t s hst]
    split
    · rfl
    · rfl
  by_cases hs2 : (padRemainingInAscii t
      (encodeChangeScheme t s DmtxScheme.Ascii DmtxUnlatch.Implicit)
      (some sizeIdx)).status = DmtxStatus.Encoding
  · rw [streamMarkComplete_of_encoding hs2] at h ⊢
    refine ⟨sizeIdx, rfl, ?_⟩
    dsimp only
    have hle : (encodeChangeScheme t s DmtxScheme.Ascii
        DmtxUnlatch.Implicit).output.b.length ≤ t.symbolDataWords sizeIdx := by
      rw [hlen1]
      have := hv _ hint sizeIdx hf
      exact_mod_cast this
    obtain ⟨hs0, hlen⟩ := padRemainingInAscii_encoding hs2 hle
    exact hlen
  · rw [streamMarkComplete_of_not_encoding hs2] at h
    exact (status_clash hs1 (padRemainingInAscii_not_complete h)).elim

/-- C2, Base256 completion paths: the perfect-fit header rewrite and
the normal unlatch-and-pad path both fill the symbol. -/
theorem completeIfDoneBase256_length {t : SymbolTable} (hv : t.Valid) {hint : Option Nat}
    {s : DmtxEncodeStream} (hst : s.status = DmtxStatus.Encoding)
    (h : (completeIfDoneBase256 t hint s).status = DmtxStatus.Complete) :
    ∃ idx, (completeIfDoneBase256 t hint s).sizeIdx = some idx ∧
      (completeIfDoneBase256 t hint s).output.b.length = t.symbolDataWords idx := by
  simp only [completeIfDoneBase256] at h ⊢
  by_cases hnx : streamInputHasNext s = true
  · simp only [eq_true hnx, ite_true] at h
    exact (status_clash hst h).elim
  · simp only [eq_false hnx, ite_false] at h ⊢
    by_cases hhbc : ¬ ((s.outputChainWordCount : Int) - s.outputChainValueCount = 1 ∨
        (s.outputChainWordCount : Int) - s.outputChainValueCount = 2)
    · simp only [eq_true hhbc, ite_true] at h
      exact (status_clash hst (streamMarkFatal_not_complete h)).elim
    · simp only [eq_false hhbc, ite_false] at h ⊢
      by_cases hb2 : (s.outputChainWordCount : Int) - s.outputChainValueCount = 2
      · simp only [eq_true hb2, ite_true] at h ⊢
        cases hf1 : t.findSymbolSize ((s.output.b.length : Int) - 1) hint with
        | none =>
          simp only [hf1] at h ⊢
          cases hf2 : t.findSymbolSize (s.output.b.length : Int) hint with
          | none =>
            simp only [hf2] at h
            exact (status_clash hst (streamMarkInvalid_not_complete h)).elim
          | some sizeIdx =>
            simp only [hf2] at h ⊢
            exact base256_normal_length hv hst hf2 _ rfl h
        | some pidx =>
          simp only [hf1] at h ⊢
          by_cases hr0 : getRemainingSymbolCapacity t ((s.output.b.length : Int) - 1) pidx = 0
          · simp only [eq_true hr0, ite_true] at h ⊢
            by_cases hs1 : (updateBase256ChainHeader t s (some pidx)).status =
                DmtxStatus.Encoding
            · have hc := eq_false (not_not_intro hs1)
              simp only [hc, ite_false] at h ⊢
              rw [streamMarkComplete_of_encoding hs1]
              exact ⟨pidx, rfl, updateBase256ChainHeader_perfect_encoding hs1⟩
            · have hc := eq_true hs1
              simp only [hc, ite_true] at h
              exact (status_clash hst (updateBase256ChainHeader_not_complete h)).elim
          · simp only [eq_false hr0, ite_false] at h ⊢
            cases hf2 : t.findSymbolSize (s.output.b.length : Int) hint with
            | none =>
              simp only [hf2] at h
              exact (status_clash hst (streamMarkInvalid_not_complete h)).elim
            | some sizeIdx =>
              simp only [hf2] at h ⊢
              exact base256_normal_length hv hst hf2 _ rfl h
      · simp only [eq_false hb2, ite_false] at h ⊢
        cases hf2 : t.findSymbolSize (s.output.b.length : Int) hint with
        | none =>
          simp only [hf2] at h
          exact (status_clash hst (streamMarkInvalid_not_complete h)).elim
        | some sizeIdx =>
          simp only [hf2] at h ⊢
          exact base256_normal_length hv hst hf2 _ rfl h

/-- C2: for every encode that terminates with status `Complete`, on any
of the five completion paths (ASCII, CTX perfect fit, CTX partial,
EDIFACT, Base256), the final output length equals
`symbolDataWords sizeIdx` for the `sizeIdx` recorded at completion:
padding fills the resolved symbol exactly. -/
theorem complete_output_length_eq_dataWords (t : SymbolTable) (hv : t.Valid)
    (hint : Option Nat) :
    (∀ s : DmtxEncodeStream, s.status = DmtxStatus.Encoding →
        (completeIfDoneAscii t hint s).status = DmtxStatus.Complete →
        ∃ idx, (completeIfDoneAscii t hint s).sizeIdx = some idx ∧
          (completeIfDoneAscii t hint s).output.b.length = t.symbolDataWords idx) ∧
    (∀ s : DmtxEncodeStream, s.status = DmtxStatus.Encoding →
        (completeIfDoneCTX t hint s).status = DmtxStatus.Complete →
        ∃ idx, (completeIfDoneCTX t hint s).sizeIdx = some idx ∧
          (completeIfDoneCTX t hint s).output.b.length = t.symbolDataWords idx) ∧
    (∀ (s : DmtxEncodeStream) (vl : DmtxByteList), s.status = DmtxStatus.Encoding →
        (completeIfDonePartialCTX t s vl hint).status = DmtxStatus.Complete →
        ∃ idx, (completeIfDonePartialCTX t s vl hint).sizeIdx = some idx ∧
          (completeIfDonePartialCTX t s vl hint).output.b.length = t.symbolDataWords idx) ∧
    (∀ s : DmtxEncodeStream, s.status = DmtxStatus.Encoding →
        (completeIfDoneEdifact t hint s).status = DmtxStatus.Complete →
        ∃ idx, (completeIfDoneEdifact t hint s).sizeIdx = some idx ∧
          (completeIfDoneEdifact t hint s).output.b.length = t.symbolDataWords idx) ∧
    (∀ s : DmtxEncodeStream, s.status = DmtxStatus.Encoding →
        (completeIfDoneBase256 t hint s).status = DmtxStatus.Complete →
        ∃ idx, (completeIfDoneBase256 t hint s).sizeIdx = some idx ∧
          (completeIfDoneBase256 t hint s).output.b.length = t.symbolDataWords idx) := by
  refine ⟨?_, ?_, ?_, ?_, ?_⟩
  · intro s hst h
    exact completeIfDoneAscii_length hv hst h
  · intro s hst h
    exact completeIfDoneCTX_length hv hst h
  · intro s vl hst h
    exact completeIfDonePartialCTX_length hv hst h
  · intro s hst h
    exact completeIfDoneEdifact_length hv hst h
  · intro s hst h
    exact completeIfDoneBase256_length hv hst h

/-- Witness for C2: the ASCII completion path on an empty input with a
five-word symbol pads the output to exactly five codewords. -/
theorem complete_output_length_eq_dataWords_witness :
    ∃ idx, (completeIfDoneAscii tinyTable none (initStream [] 5)).sizeIdx = some idx ∧
      (completeIfDoneAscii tinyTable none (initStream [] 5)).output.b.length =
        tinyTable.symbolDataWords idx :=
  (complete_output_length_eq_dataWords tinyTable tinyTable_valid none).1
    (initStream [] 5) (by decide) (by decide)


/-- The encode loop steps once while the stream is still encoding. -/
theorem encodeLoop_succ (t : SymbolTable) (tgt : DmtxScheme) (hint : Option Nat)
    (f : Nat) (s : DmtxEncodeStream) (h : s.status = DmtxStatus.Encoding) :
    encodeLoop t tgt hint (f + 1) s = encodeLoop t tgt hint f (encodeNextChunk t tgt hint s) := by
  simp [encodeLoop, h]

/-- The encode loop leaves a stream with a terminal status unchanged. -/
theorem encodeLoop_stopped (t : SymbolTable) (tgt : DmtxScheme) (hint : Option Nat)
    (f : Nat) (s : DmtxEncodeStream) (h : ¬ s.status = DmtxStatus.Encoding) :
    encodeLoop t tgt hint f s = s := by
  cases f with
  | zero => rfl
  | succ g => simp [encodeLoop, h]

/-- The randomized pad loop only appends to the output. -/
theorem padLoop_output (n : Nat) : ∀ s : DmtxEncodeStream,
    ∃ L, (padLoop n s).output.b = s.output.b ++ L := by
  induction n with
  | zero =>
    intro s
    exact ⟨[], by simp [padLoop]⟩
  | succ m ih =>
    intro s
    have hout : ∃ K, (streamOutputChainAppend s
        (randomize253 DmtxValueAsciiPad (s.output.b.length + 1))).output.b =
        s.output.b ++ K := by
      simp only [streamOutputChainAppend]
      split
      · exact ⟨[randomize253 DmtxValueAsciiPad (s.output.b.length + 1) % 256], rfl⟩
      · refine ⟨[], ?_⟩
        simp only [streamMarkFatal]
        split
        · simp
        · simp
    obtain ⟨K, hK⟩ := hout
    simp only [padLoop]
    by_cases hs1 : (streamOutputChainAppend s
        (randomize253 DmtxValueAsciiPad (s.output.b.length + 1))).status ≠ DmtxStatus.Encoding
    · simp only [eq_true hs1, ite_true]
      exact ⟨K, hK⟩
    · simp only [eq_false hs1, ite_false]
      obtain ⟨L2, hL2⟩ := ih (streamOutputChainAppend s
        (randomize253 DmtxValueAsciiPad (s.output.b.length + 1)))
      exact ⟨K ++ L2, by rw [hL2, hK, List.append_assoc]⟩

/-- C8 as stated is false: the second codeword of the ASCII encoding of
"123456" is 164 (the digit pair "34" maps to 34 + 130), not 154. -/
theorem asciiDigits_claimed_bytes_counterexample :
    ¬ ((encodeSingleScheme2 tinyTable DmtxScheme.Ascii none
        (initStream [49, 50, 51, 52, 53, 54] 5)).output.b.take 4 = [142, 154, 186, 129]) := by
  decide

/-- C8 amended: encoding "123456" with target scheme ASCII produces the
three digit-pair codewords 142, 164, 186 followed by the pad codeword
129 whenever the resolved symbol holds at least four data words. -/
theorem asciiDigits_output (t : SymbolTable) (hint : Option Nat) (idx cap : Nat)
    (hfind : t.findSymbolSize 3 hint = some idx)
    (hdw : 4 ≤ t.symbolDataWords idx)
    (hcap : 4 ≤ cap) :
    (encodeSingleScheme2 t DmtxScheme.Ascii hint
        (initStream [49, 50, 51, 52, 53, 54] cap)).output.b.take 4 = [142, 164, 186, 129] := by
  have h0 : (0 : Nat) < cap := by omega
  have h1 : (1 : Nat) < cap := by omega
  have h2 : (2 : Nat) < cap := by omega
  have h3 : (3 : Nat) < cap := by omega
  have hrem : (0 : Int) < (t.symbolDataWords idx : Int) - 3 := by omega
  have e0 : encodeSingleScheme2 t DmtxScheme.Ascii hint
      (initStream [49, 50, 51, 52, 53, 54] cap) =
      encodeLoop t DmtxScheme.Ascii hint 8 (initStream [49, 50, 51, 52, 53, 54] cap) := by
    simp [encodeSingleScheme2, initStream]
  have e1 : encodeNextChunk t DmtxScheme.Ascii hint (initStream [49, 50, 51, 52, 53, 54] cap) =
      { input := [49, 50, 51, 52, 53, 54], inputNext := 2,
        output := { capacity := cap, b := [142] },
        currentScheme := DmtxScheme.Ascii, outputChainWordCount := 1,
        outputChainValueCount := 1, status := DmtxStatus.Encoding,
        reason := none, sizeIdx := none } := by
    simp [encodeNextChunk, encodeNextChunkAscii, streamInputHasNext, streamInputAdvanceNext,
      streamInputPeekNext, encodeValueAscii, encodeNextChunkAsciiSingle, streamOutputChainAppend,
      completeIfDoneAscii, initStream, dmtxByteListBuild, isDigit, h0]
  have e2 : encodeNextChunk t DmtxScheme.Ascii hint
      { input := [49, 50, 51, 52, 53, 54], inputNext := 2,
        output := { capacity := cap, b := [142] },
        currentScheme := DmtxScheme.Ascii, outputChainWordCount := 1,
        outputChainValueCount := 1, status := DmtxStatus.Encoding,
        reason := none, sizeIdx := none } =
      { input := [49, 50, 51, 52, 53, 54], inputNext := 4,
        output := { capacity := cap, b := [142, 164] },
        currentScheme := DmtxScheme.Ascii, outputChainWordCount := 2,
        outputChainValueCount := 2, status := DmtxStatus.Encoding,
        reason := none, sizeIdx := none } := by
    simp [encodeNextChunk, encodeNextChunkAscii, streamInputHasNext, streamInputAdvanceNext,
      streamInputPeekNext, encodeValueAscii, encodeNextChunkAsciiSingle, streamOutputChainAppend,
      completeIfDoneAscii, isDigit, h1]
  have e3 : encodeNextChunk t DmtxScheme.Ascii hint
      { input := [49, 50, 51, 52, 53, 54], inputNext := 4,
        output := { capacity := cap, b := [142, 164] },
        currentScheme := DmtxScheme.Ascii, outputChainWordCount := 2,
        outputChainValueCount := 2, status := DmtxStatus.Encoding,
        reason := none, sizeIdx := none } =
      (if (padLoop ((t.symbolDataWords idx : Int) - 3 - 1).toNat
            { input := [49, 50, 51, 52, 53, 54], inputNext := 6,
              output := { capacity := cap, b := [142, 164, 186, 129] },
              currentScheme := DmtxScheme.Ascii, outputChainWordCount := 4,
              outputChainValueCount := 3, status := DmtxStatus.Encoding,
              reason := none, sizeIdx := none }).status ≠ DmtxStatus.Encoding then
        padLoop ((t.symbolDataWords idx : Int) - 3 - 1).toNat
            { input := [49, 50, 51, 52, 53, 54], inputNext := 6,
              output := { capacity := cap, b := [142, 164, 186, 129] },
              currentScheme := DmtxScheme.Ascii, outputChainWordCount := 4,
              outputChainValueCount := 3, status := DmtxStatus.Encoding,
              reason := none, sizeIdx := none }
      else
        streamMarkComplete
          (padLoop ((t.symbolDataWords idx : Int) - 3 - 1).toNat
            { input := [49, 50, 51, 52, 53, 54], inputNext := 6,
              output := { capacity := cap, b := [142, 164, 186, 129] },
              currentScheme := DmtxScheme.Ascii, outputChainWordCount := 4,
              outputChainValueCount := 3, status := DmtxStatus.Encoding,
              reason := none, sizeIdx := none })
          idx) := by
    simp [encodeNextChunk, encodeNextChunkAscii, streamInputHasNext, streamInputAdvanceNext,
      streamInputPeekNext, encodeValueAscii, encodeNextChunkAsciiSingle, streamOutputChainAppend,
      completeIfDoneAscii, padRemainingInAscii, getRemainingSymbolCapacity, DmtxValueAsciiPad,
      isDigit, hfind, hrem, h2, h3]
  have e4 : (encodeNextChunk t DmtxScheme.Ascii hint
      { input := [49, 50, 51, 52, 53, 54], inputNext := 4,
        output := { capacity := cap, b := [142, 164] },
        currentScheme := DmtxScheme.Ascii, outputChainWordCount := 2,
        outputChainValueCount := 2, status := DmtxStatus.Encoding,
        reason := none, sizeIdx := none }).status ≠ DmtxStatus.Encoding ∧
      ∃ L, (encodeNextChunk t DmtxScheme.Ascii hint
        { input := [49, 50, 51, 52, 53, 54], inputNext := 4,
          output := { capacity := cap, b := [142, 164] },
          currentScheme := DmtxScheme.Ascii, outputChainWordCount := 2,
          outputChainValueCount := 2, status := DmtxStatus.Encoding,
          reason := none, sizeIdx := none }).output.b = [142, 164, 186, 129] ++ L := by
    rw [e3]
    obtain ⟨L, hL⟩ := padLoop_output ((t.symbolDataWords idx : Int) - 3 - 1).toNat
      { input := [49, 50, 51, 52, 53, 54], inputNext := 6,
              output := { capacity := cap, b := [142, 164, 186, 129] },
              currentScheme := DmtxScheme.Ascii, outputChainWordCount := 4,
              outputChainValueCount := 3, status := DmtxStatus.Encoding,
              reason := none, sizeIdx := none }
    by_cases hbr : (padLoop ((t.symbolDataWords idx : Int) - 3 - 1).toNat
        { input := [49, 50, 51, 52, 53, 54], inputNext := 6,
              output := { capacity := cap, b := [142, 164, 186, 129] },
              currentScheme := DmtxScheme.Ascii, outputChainWordCount := 4,
              outputChainValueCount := 3, status := DmtxStatus.Encoding,
              reason := none, sizeIdx := none }).status = DmtxStatus.Encoding
    · rw [if_neg (not_not_intro hbr), streamMarkComplete_of_encoding hbr]
      refine ⟨by simp, L, ?_⟩
      dsimp only
      rw [hL]
    · rw [if_pos hbr]
      exact ⟨hbr, L, hL⟩
  obtain ⟨hstat, L, hL⟩ := e4
  rw [e0, show (8 : Nat) = 7 + 1 from rfl,
    encodeLoop_succ t DmtxScheme.Ascii hint 7 _ rfl, e1,
    show (7 : Nat) = 6 + 1 from rfl,
    encodeLoop_succ t DmtxScheme.Ascii hint 6 _ rfl, e2,
    show (6 : Nat) = 5 + 1 from rfl,
    encodeLoop_succ t DmtxScheme.Ascii hint 5 _ rfl,
    encodeLoop_stopped t DmtxScheme.Ascii hint 5 _ hstat, hL]
  simp

/-- Witness for the amended C8 at a concrete five-word symbol table. -/
theorem asciiDigits_output_witness :
    (encodeSingleScheme2 tinyTable DmtxScheme.Ascii none
        (initStream [49, 50, 51, 52, 53, 54] 5)).output.b.take 4 = [142, 164, 186, 129] :=
  asciiDigits_output tinyTable none 0 5 (by decide) (by decide) (by decide)

end Dmtx
